import Mathlib

/-!
Shallow embedding of the VGM-to-IMS/BNK transcoder (Ospaggi/imsplay,
`src/tools/vgm-to-ims/*` and the unnamed converter/ims-writer sources).

Machine integers are modelled as `Nat` (unsigned byte/register values) and
`Int` (JS `number` values that may be negative, such as tick counts and the
running-status sentinel `-1`).  `Uint8Array`/`DataView` stores truncate
modulo 256 / 2^16 / 2^32, which is made explicit below.
-/

namespace ImsPlay

/-! ## Byte-level helpers (DataView / Uint8Array semantics) -/

/-- Little-endian uint16 store (`DataView.setUint16(_, v, true)`); the stored
value is reduced modulo 2^16 byte by byte. -/
def u16le (n : Nat) : List Nat := [n % 256, n / 256 % 256]

/-- Little-endian uint32 store (`DataView.setUint32(_, v, true)`). -/
def u32le (n : Nat) : List Nat :=
  [n % 256, n / 256 % 256, n / 65536 % 256, n / 16777216 % 256]

/-- Little-endian uint16 read at `off` (missing bytes read as 0). -/
def readU16LE (bytes : List Nat) (off : Nat) : Nat :=
  bytes.getD off 0 + 256 * bytes.getD (off + 1) 0

/-- Little-endian uint32 read at `off`. -/
def readU32LE (bytes : List Nat) (off : Nat) : Nat :=
  bytes.getD off 0 + 256 * bytes.getD (off + 1) 0 +
    65536 * bytes.getD (off + 2) 0 + 16777216 * bytes.getD (off + 3) 0

/-- Fixed-width string serialisation: `charCodeAt(i)` for `i < s.length`,
NUL padding beyond, each byte truncated modulo 256 on store
(`stringToBytes` in bnk-writer.ts and the name loops in ims-writer.ts). -/
def strBytesFixed (s : String) (n : Nat) : List Nat :=
  (List.range n).map fun i => (s.data.getD i (Char.ofNat 0)).toNat % 256

/-! ## IMS delta-time encoding (IMSWriter.encodeDeltaTime) -/

/-- Loop of `IMSWriter.encodeDeltaTime` after the `ticks <= 0` early return:
emit `0xF8` per whole 240-tick chunk, then the (dead, see the second branch
below and `encodeDeltaAux_spec`) `ticks >= 0xF8` escape, then the final
byte.  The `fuel` argument only drives structural recursion: the loop runs
`t / 240 ≤ t` times, so with `fuel = t` (as instantiated in
`encodeDeltaTime`) the base case is never reached. -/
def encodeDeltaAux : Nat → Nat → List Nat
  | 0, t => [t]
  | fuel + 1, t =>
    if 240 ≤ t then 0xf8 :: encodeDeltaAux fuel (t - 240)
    else if 0xf8 ≤ t then [0xf7, t - 0xf7]
    else [t]

/-- Embeds `IMSWriter.encodeDeltaTime`: `[0x00]` for non-positive delays, otherwise
240-tick chunking of the (positive, hence `toNat`-exact) tick count. -/
def encodeDeltaTime (ticks : Int) : List Nat :=
  if ticks ≤ 0 then [0] else encodeDeltaAux ticks.toNat ticks.toNat

/-- Modelled from the spec: the delta-time *decoder* is not part of the
repository source (only the encoder is); per the spec each `0xF8` byte adds
240 ticks and reading continues, and a final byte in `[0x00, 0xF7]` adds its
own value and stops. -/
def decodeDelta : List Nat → Nat
  | [] => 0
  | b :: bs => if b = 0xf8 then 240 + decodeDelta bs else b

theorem encodeDeltaAux_spec (fuel : Nat) :
    ∀ t : Nat, t ≤ 240 * fuel + 239 →
    decodeDelta (encodeDeltaAux fuel t) = t ∧
    (encodeDeltaAux fuel t).length = t / 240 + 1 ∧
    ∀ b ∈ encodeDeltaAux fuel t, b = 0xf8 ∨ b ≤ 239 := by
  induction fuel with
  | zero =>
    intro t ht
    refine ⟨?_, ?_, ?_⟩
    · have hd : decodeDelta [t] = if t = 0xf8 then 240 + decodeDelta [] else t := by
        simp [decodeDelta]
      rw [encodeDeltaAux, hd, if_neg (by omega)]
    · rw [encodeDeltaAux, List.length_singleton]; omega
    · intro b hb
      rw [encodeDeltaAux, List.mem_singleton] at hb
      omega
  | succ fuel ih =>
    intro t ht
    by_cases hc : 240 ≤ t
    · obtain ⟨ihd, ihl, ihm⟩ := ih (t - 240) (by omega)
      rw [encodeDeltaAux, if_pos hc]
      refine ⟨?_, ?_, ?_⟩
      · have hd : decodeDelta (248 :: encodeDeltaAux fuel (t - 240)) =
            240 + decodeDelta (encodeDeltaAux fuel (t - 240)) := by
          simp [decodeDelta]
        rw [hd, ihd]; omega
      · rw [List.length_cons, ihl]; omega
      · intro b hb
        rcases List.mem_cons.mp hb with hb1 | hb2
        · exact Or.inl hb1
        · exact ihm b hb2
    · rw [encodeDeltaAux, if_neg hc, if_neg (by omega)]
      refine ⟨?_, ?_, ?_⟩
      · have hd : decodeDelta [t] = if t = 0xf8 then 240 + decodeDelta [] else t := by
          simp [decodeDelta]
        rw [hd, if_neg (by omega)]
      · rw [List.length_singleton]; omega
      · intro b hb
        rw [List.mem_singleton] at hb
        omega

/-- C2 (amended): the delta-time encoding round-trips for *every* tick count
`t ≥ 0` (in particular all of `[0, 2^31)`), its length is `⌊t/240⌋ + 1`
bytes (not `⌈t/240⌉ + 1`: the remainder left after removing whole 240-tick
chunks is below 240, so the `t mod 240 ∈ [0xF8, 0xFB]` escape case of the
original claim can never occur), and every emitted byte is either the chunk
byte `0xF8` or a direct value `≤ 0xF7`; the reserved bytes `0xF9..0xFF`
never appear. -/
theorem delta_roundtrip_length_reserved (t : Nat) :
    decodeDelta (encodeDeltaTime (t : Int)) = t ∧
    (encodeDeltaTime (t : Int)).length = t / 240 + 1 ∧
    ∀ b ∈ encodeDeltaTime (t : Int), b = 0xf8 ∨ b ≤ 0xf7 := by
  rcases Nat.eq_zero_or_pos t with h0 | hpos
  · subst h0
    refine ⟨?_, ?_, ?_⟩
    · rw [encodeDeltaTime, if_pos (by norm_num)]
      simp [decodeDelta]
    · rw [encodeDeltaTime, if_pos (by norm_num)]
      simp
    · rw [encodeDeltaTime, if_pos (by norm_num)]
      intro b hb
      rw [List.mem_singleton] at hb
      omega
  · have hne : ¬ ((t : Int) ≤ 0) := by
      simp only [not_le]
      exact_mod_cast hpos
    rw [encodeDeltaTime, if_neg hne, Int.toNat_natCast]
    obtain ⟨hd, hl, hm⟩ := encodeDeltaAux_spec t t (by omega)
    refine ⟨hd, hl, ?_⟩
    intro b hb
    rcases hm b hb with hb1 | hb2
    · exact Or.inl hb1
    · exact Or.inr (by omega)

/-- C2 (counterexample): at `t = 239` the encoding is the single byte
`[239]`, one byte long, while the claimed byte count
`⌈239/240⌉ + 1 = 2` differs. -/
theorem delta_length_claim_false :
    encodeDeltaTime (239 : Int) = [239] ∧
    (encodeDeltaTime (239 : Int)).length = 1 ∧
    (239 + 240 - 1) / 240 + 1 = 2 := by
  refine ⟨?_, ?_, by norm_num⟩ <;> decide

/-! ## IMS events and the IMS writer (ims-writer.ts) -/

/-- Embeds `IMSEvent` from types.ts: `type` is the status nibble (0x80/0x90/0xA0/
0xC0/0xE0/0xF0), `channel` 0..8, `data` the payload bytes, `absoluteTick`
the tick position (a JS number, possibly produced from arbitrary tempo
arithmetic, hence `Int`), `orderIndex` the optional stable-sort tiebreak. -/
structure IMSEvent where
  type : Nat
  channel : Nat
  data : List Nat
  absoluteTick : Int
  orderIndex : Option Nat
deriving DecidableEq

/-- The comparator fallback `a.orderIndex ?? 0`. -/
def ordIdx (e : IMSEvent) : Nat := e.orderIndex.getD 0

/-- The strict part of the comparator in `IMSWriter.write`: compare by
`absoluteTick`, then by `orderIndex ?? 0`. -/
def eventLtB (a b : IMSEvent) : Bool :=
  a.absoluteTick < b.absoluteTick ||
    (a.absoluteTick == b.absoluteTick && ordIdx a < ordIdx b)

/-- Non-strict key order induced by the comparator (used to state
sortedness). -/
def EventLe (a b : IMSEvent) : Prop :=
  a.absoluteTick < b.absoluteTick ∨
    (a.absoluteTick = b.absoluteTick ∧ ordIdx a ≤ ordIdx b)

/-- One step of a stable insertion sort: insert `e` after every element
strictly below it. -/
def insertEvent (e : IMSEvent) : List IMSEvent → List IMSEvent
  | [] => [e]
  | x :: xs => if eventLtB x e then x :: insertEvent e xs else e :: x :: xs

/-- Embeds `this.events.sort(comparator)` in `IMSWriter.write`.  JavaScript
`Array.prototype.sort` is stable (ES2019) and the comparator is a total
preorder on the key `(absoluteTick, orderIndex ?? 0)`, so its result is the
unique stable sort, which this insertion sort computes. -/
def sortEvents (l : List IMSEvent) : List IMSEvent := l.foldr insertEvent []

theorem insertEvent_perm (e : IMSEvent) (l : List IMSEvent) :
    (insertEvent e l).Perm (e :: l) := by
  induction l with
  | nil => rfl
  | cons x xs ih =>
    rw [insertEvent]
    by_cases h : eventLtB x e = true
    · rw [if_pos h]
      exact (ih.cons x).trans (List.Perm.swap e x xs)
    · rw [if_neg h]

theorem sortEvents_perm (l : List IMSEvent) : (sortEvents l).Perm l := by
  induction l with
  | nil => rfl
  | cons x xs ih =>
    exact (insertEvent_perm x (sortEvents xs)).trans (ih.cons x)

theorem eventLtB_le {a b : IMSEvent} (h : eventLtB a b = true) : EventLe a b := by
  rw [eventLtB] at h
  rw [EventLe]
  simp only [Bool.or_eq_true, Bool.and_eq_true, beq_iff_eq, decide_eq_true_eq] at h
  rcases h with h | ⟨h1, h2⟩
  · exact Or.inl h
  · exact Or.inr ⟨h1, Nat.le_of_lt h2⟩

theorem eventLtB_not_le {a b : IMSEvent} (h : ¬ eventLtB a b = true) : EventLe b a := by
  rw [eventLtB] at h
  rw [EventLe]
  simp only [Bool.or_eq_true, Bool.and_eq_true, beq_iff_eq, decide_eq_true_eq, not_or,
    not_and, not_lt] at h
  obtain ⟨h1, h2⟩ := h
  rcases lt_or_eq_of_le h1 with hlt | heq
  · exact Or.inl hlt
  · exact Or.inr ⟨heq, h2 heq.symm⟩

theorem EventLe_trans {a b c : IMSEvent} (h1 : EventLe a b) (h2 : EventLe b c) :
    EventLe a c := by
  rw [EventLe] at h1 h2 ⊢
  rcases h1 with h1 | ⟨h1a, h1b⟩ <;> rcases h2 with h2 | ⟨h2a, h2b⟩
  · exact Or.inl (h1.trans h2)
  · exact Or.inl (h2a ▸ h1)
  · exact Or.inl (h1a ▸ h2)
  · exact Or.inr ⟨h1a.trans h2a, h1b.trans h2b⟩

theorem mem_insertEvent {y e : IMSEvent} {l : List IMSEvent}
    (h : y ∈ insertEvent e l) : y = e ∨ y ∈ l :=
  List.mem_cons.mp ((insertEvent_perm e l).mem_iff.mp h)

theorem pairwise_insertEvent (e : IMSEvent) (l : List IMSEvent)
    (h : l.Pairwise EventLe) : (insertEvent e l).Pairwise EventLe := by
  induction l with
  | nil => simp [insertEvent]
  | cons x xs ih =>
    rw [List.pairwise_cons] at h
    obtain ⟨hx, hxs⟩ := h
    rw [insertEvent]
    by_cases hc : eventLtB x e = true
    · rw [if_pos hc]
      rw [List.pairwise_cons]
      refine ⟨?_, ih hxs⟩
      intro y hy
      rcases mem_insertEvent hy with rfl | hy2
      · exact eventLtB_le hc
      · exact hx y hy2
    · rw [if_neg hc]
      rw [List.pairwise_cons]
      refine ⟨?_, List.pairwise_cons.mpr ⟨hx, hxs⟩⟩
      intro y hy
      rcases List.mem_cons.mp hy with rfl | hy2
      · exact eventLtB_not_le hc
      · exact EventLe_trans (eventLtB_not_le hc) (hx y hy2)

theorem sortEvents_pairwise (l : List IMSEvent) :
    (sortEvents l).Pairwise EventLe := by
  induction l with
  | nil => simp [sortEvents]
  | cons x xs ih => exact pairwise_insertEvent x (sortEvents xs) ih

/-- C5: after `IMSWriter.write` sorts the event list, the result is a
permutation of the input in which, for any two positions `i < j` whose
events carry equal `absoluteTick`, the event at `i` has the smaller (or
equal) `orderIndex ?? 0`.  Since `VGMToIMSConverter.processCommands` pushes
each 0xC0 instrument-change with a strictly smaller `orderIndex` than the
0x90 note-on that follows it at the same tick, the instrument-change is
encoded first. -/
theorem sort_stable_by_tick_then_order (evs : List IMSEvent) :
    (sortEvents evs).Perm evs ∧
    ∀ (i j : Fin (sortEvents evs).length), i < j →
      ((sortEvents evs).get i).absoluteTick = ((sortEvents evs).get j).absoluteTick →
      ordIdx ((sortEvents evs).get i) ≤ ordIdx ((sortEvents evs).get j) := by
  refine ⟨sortEvents_perm evs, ?_⟩
  intro i j hij htick
  have hp := (List.pairwise_iff_get.mp (sortEvents_pairwise evs)) i j hij
  rw [EventLe] at hp
  rcases hp with hp | ⟨_, hp⟩
  · rw [htick] at hp
    exact absurd hp (lt_irrefl _)
  · exact hp

/-- Witness for C5 at a concrete two-event list: an instrument-change
(0xC0, order 0) and a note-on (0x90, order 1) at the same tick 5, pushed in
reversed order, end up with the instrument-change first. -/
theorem sort_stable_by_tick_then_order_witness :
    (sortEvents [⟨0x90, 0, [58, 127], 5, some 1⟩, ⟨0xc0, 0, [0], 5, some 0⟩]).Perm
      [⟨0x90, 0, [58, 127], 5, some 1⟩, ⟨0xc0, 0, [0], 5, some 0⟩] ∧
    ordIdx ((sortEvents [⟨0x90, 0, [58, 127], 5, some 1⟩, ⟨0xc0, 0, [0], 5, some 0⟩]).get
        ⟨0, by decide⟩) ≤
      ordIdx ((sortEvents [⟨0x90, 0, [58, 127], 5, some 1⟩, ⟨0xc0, 0, [0], 5, some 0⟩]).get
        ⟨1, by decide⟩) := by
  refine ⟨(sort_stable_by_tick_then_order _).1, ?_⟩
  exact (sort_stable_by_tick_then_order
      [⟨0x90, 0, [58, 127], 5, some 1⟩, ⟨0xc0, 0, [0], 5, some 0⟩]).2
    ⟨0, by decide⟩ ⟨1, by decide⟩ (by decide) (by decide)

/-- Embeds `IMSWriter.encodeEvent`: optional status byte under running status,
then the payload selected by the `switch` on `event.type` (unknown types
fall through with no payload). -/
def encodeEvent (e : IMSEvent) (runningStatus : Int) : List Nat :=
  let statusByte := e.type ||| e.channel
  let head : List Nat := if (statusByte : Int) = runningStatus then [] else [statusByte]
  let payload : List Nat :=
    if e.type = 0x80 ∨ e.type = 0x90 then [e.data.getD 0 0, e.data.getD 1 0]
    else if e.type = 0xa0 then [e.data.getD 0 0]
    else if e.type = 0xc0 then [e.data.getD 0 0]
    else if e.type = 0xe0 then [e.data.getD 0 0, e.data.getD 1 0]
    else if e.type = 0xf0 then [0, 0, e.data.getD 0 0, e.data.getD 1 0, 0]
    else []
  head ++ payload

/-- Loop of `IMSWriter.encodeMusicData`: each event followed by the delta to
the next event (0 for the last event), threading the running status, which
starts at `-1`. -/
def encodeMusicAux : List IMSEvent → Int → List Nat
  | [], _ => []
  | e :: rest, runningStatus =>
    let nextTick : Int := match rest with
      | [] => e.absoluteTick
      | e2 :: _ => e2.absoluteTick
    encodeEvent e runningStatus ++ encodeDeltaTime (nextTick - e.absoluteTick) ++
      encodeMusicAux rest ((e.type ||| e.channel : Nat) : Int)

/-- Embeds `IMSWriter.encodeMusicData`: the event/delta stream plus the final
`0xFC` loop marker, truncated byte-wise by the `Uint8Array` constructor. -/
def encodeMusicData (events : List IMSEvent) : List Nat :=
  (encodeMusicAux events (-1) ++ [0xfc]).map (· % 256)

/-- The `IMSWriter` fields set before `write()`: `setSongName` truncates to
30 chars, `setTempo` clamps (see `setTempoVal`), `setInstruments` truncates
names to 8 chars. -/
structure IMSWriterState where
  events : List IMSEvent
  instrumentNames : List String
  songName : String
  basicTempo : Nat
  dMode : Nat

/-- Embeds `IMSWriter.setTempo`: `Math.max(1, Math.min(255, tempo))`; the result is
in `[1, 255]`, so storing it as `Nat` is exact. -/
def setTempoVal (tempo : Int) : Nat := (max 1 (min 255 tempo)).toNat

/-- The 71-byte IMS header laid out by `IMSWriter.write`: 6 zero bytes, the
30-byte song name, 6 zeros, `byteSize` u32 at 42, 12 zeros, `dMode` at 58, a
zero, `basicTempo` u16 at 60, 9 zeros. -/
def imsHeader (songName : String) (musicLen dMode basicTempo : Nat) : List Nat :=
  List.replicate 6 0 ++ strBytesFixed songName 30 ++ List.replicate 6 0 ++
    u32le musicLen ++ List.replicate 12 0 ++ [dMode % 256] ++ [0] ++
    u16le basicTempo ++ List.replicate 9 0

/-- The IMS footer: one zero separator, the u16 instrument count, and one
9-byte NUL-padded field per instrument name. -/
def imsFooter (names : List String) : List Nat :=
  [0] ++ u16le names.length ++ names.flatMap (fun s => strBytesFixed s 9)

/-- Embeds `IMSWriter.write`: sort, encode the music data, then emit
header ++ music data ++ footer. -/
def imsWrite (w : IMSWriterState) : List Nat :=
  let musicData := encodeMusicData (sortEvents w.events)
  imsHeader w.songName musicData.length w.dMode w.basicTempo ++ musicData ++
    imsFooter w.instrumentNames

theorem strBytesFixed_length (s : String) (n : Nat) : (strBytesFixed s n).length = n := by
  simp [strBytesFixed]

theorem imsHeader_length (sn : String) (ml dm bt : Nat) :
    (imsHeader sn ml dm bt).length = 71 := by
  simp [imsHeader, strBytesFixed, u32le, u16le]

theorem imsHeader_getD_42 (sn : String) (ml dm bt : Nat) (k : Nat) (hk : k < 4) :
    (imsHeader sn ml dm bt).getD (42 + k) 0 = (u32le ml).getD k 0 := by
  rw [imsHeader]
  rw [List.getD_append _ _ _ _ (by simp [strBytesFixed_length, u32le, u16le]; omega)]
  rw [List.getD_append _ _ _ _ (by simp [strBytesFixed_length, u32le]; omega)]
  rw [List.getD_append _ _ _ _ (by simp [strBytesFixed_length, u32le]; omega)]
  rw [List.getD_append _ _ _ _ (by simp [strBytesFixed_length, u32le]; omega)]
  rw [List.getD_append _ _ _ _ (by simp [strBytesFixed_length, u32le]; omega)]
  rw [List.getD_append_right _ _ _ _ (by simp [strBytesFixed_length])]
  have h42 : 42 + k -
      (List.replicate 6 0 ++ strBytesFixed sn 30 ++ List.replicate 6 (0:Nat)).length = k := by
    simp [strBytesFixed_length]
  rw [h42]

theorem imsHeader_getD_58 (sn : String) (ml dm bt : Nat) :
    (imsHeader sn ml dm bt).getD 58 0 = dm % 256 := by
  rw [imsHeader]
  rw [List.getD_append _ _ _ _ (by simp [strBytesFixed_length, u32le, u16le])]
  rw [List.getD_append _ _ _ _ (by simp [strBytesFixed_length, u32le])]
  rw [List.getD_append _ _ _ _ (by simp [strBytesFixed_length, u32le])]
  rw [List.getD_append_right _ _ _ _ (by simp [strBytesFixed_length, u32le])]
  have h58 : 58 - (List.replicate 6 0 ++ strBytesFixed sn 30 ++ List.replicate 6 (0:Nat) ++
      u32le ml ++ List.replicate 12 0).length = 0 := by
    simp [strBytesFixed_length, u32le]
  rw [h58]
  rfl

theorem imsHeader_getD_60 (sn : String) (ml dm bt : Nat) (k : Nat) (hk : k < 2) :
    (imsHeader sn ml dm bt).getD (60 + k) 0 = (u16le bt).getD k 0 := by
  rw [imsHeader]
  rw [List.getD_append _ _ _ _ (by simp [strBytesFixed_length, u32le, u16le]; omega)]
  rw [List.getD_append_right _ _ _ _ (by simp [strBytesFixed_length, u32le])]
  have h60 : 60 + k - (List.replicate 6 0 ++ strBytesFixed sn 30 ++ List.replicate 6 (0:Nat) ++
      u32le ml ++ List.replicate 12 0 ++ [dm % 256] ++ [0]).length = k := by
    simp [strBytesFixed_length, u32le]
  rw [h60]

theorem imsWrite_getD_header (w : IMSWriterState) (n : Nat) (h : n < 71) :
    (imsWrite w).getD n 0 =
      (imsHeader w.songName (encodeMusicData (sortEvents w.events)).length
        w.dMode w.basicTempo).getD n 0 := by
  simp only [imsWrite]
  rw [List.getD_append _ _ _ _ (by rw [List.length_append, imsHeader_length]; omega)]
  rw [List.getD_append _ _ _ _ (by rw [imsHeader_length]; omega)]

theorem imsWrite_getD_music (w : IMSWriterState) (i : Nat)
    (h : i < (encodeMusicData (sortEvents w.events)).length) :
    (imsWrite w).getD (71 + i) 0 = (encodeMusicData (sortEvents w.events)).getD i 0 := by
  simp only [imsWrite]
  rw [List.getD_append _ _ _ _ (by rw [List.length_append, imsHeader_length]; omega)]
  rw [List.getD_append_right _ _ _ _ (by rw [imsHeader_length]; omega)]
  rw [imsHeader_length]
  congr 1
  omega

theorem imsWrite_getD_separator (w : IMSWriterState) :
    (imsWrite w).getD (71 + (encodeMusicData (sortEvents w.events)).length) 0 = 0 := by
  simp only [imsWrite]
  rw [List.getD_append_right _ _ _ _ (by simp [List.length_append, imsHeader_length])]
  have hlen : 71 + (encodeMusicData (sortEvents w.events)).length -
      (imsHeader w.songName (encodeMusicData (sortEvents w.events)).length
        w.dMode w.basicTempo ++ encodeMusicData (sortEvents w.events)).length = 0 := by
    rw [List.length_append, imsHeader_length]
    omega
  rw [hlen]
  rfl

theorem readU32LE_sum (n : Nat) (h : n < 4294967296) :
    n % 256 + 256 * (n / 256 % 256) + 65536 * (n / 65536 % 256) +
      16777216 * (n / 16777216 % 256) = n := by
  omega

/-- The last byte of every delta encoding is a direct value below 240
(never the chunk byte `0xF8` or the loop marker `0xFC`). -/
theorem encodeDeltaAux_last (fuel : Nat) :
    ∀ t : Nat, t ≤ 240 * fuel + 239 →
    ∃ l x, encodeDeltaAux fuel t = l ++ [x] ∧ x < 240 := by
  induction fuel with
  | zero =>
    intro t ht
    exact ⟨[], t, by rw [encodeDeltaAux]; rfl, by omega⟩
  | succ fuel ih =>
    intro t ht
    by_cases hc : 240 ≤ t
    · obtain ⟨l, x, hl, hx⟩ := ih (t - 240) (by omega)
      refine ⟨0xf8 :: l, x, ?_, hx⟩
      rw [encodeDeltaAux, if_pos hc, hl]
      rfl
    · refine ⟨[], t, ?_, by omega⟩
      rw [encodeDeltaAux, if_neg hc, if_neg (by omega)]
      rfl

theorem encodeDeltaTime_last (t : Int) :
    ∃ l x, encodeDeltaTime t = l ++ [x] ∧ x < 240 := by
  rw [encodeDeltaTime]
  by_cases hc : t ≤ 0
  · exact ⟨[], 0, by rw [if_pos hc]; rfl, by omega⟩
  · rw [if_neg hc]
    exact encodeDeltaAux_last t.toNat t.toNat (by omega)

/-- Every nonempty event list encodes to a byte stream whose final byte is
the last delta byte, hence below 240. -/
theorem encodeMusicAux_last (evs : List IMSEvent) (rs : Int) (h : evs ≠ []) :
    ∃ l x, encodeMusicAux evs rs = l ++ [x] ∧ x < 240 := by
  induction evs generalizing rs with
  | nil => exact absurd rfl h
  | cons e rest ih =>
    cases rest with
    | nil =>
      obtain ⟨l, x, hl, hx⟩ := encodeDeltaTime_last (e.absoluteTick - e.absoluteTick)
      refine ⟨encodeEvent e rs ++ l, x, ?_, hx⟩
      rw [encodeMusicAux]
      simp only [encodeMusicAux, List.append_nil, hl, List.append_assoc]
    | cons e2 rest2 =>
      obtain ⟨l, x, hl, hx⟩ := ih ((e.type ||| e.channel : Nat) : Int) (by simp)
      refine ⟨encodeEvent e rs ++
        encodeDeltaTime (e2.absoluteTick - e.absoluteTick) ++ l, x, ?_, hx⟩
      rw [encodeMusicAux]
      simp only [hl, List.append_assoc]

theorem getD_snoc_last (l : List Nat) (x : Nat) : (l ++ [x]).getD l.length 0 = x := by
  rw [List.getD_append_right _ _ _ _ (le_refl _)]
  simp

theorem encodeMusicData_last (evs : List IMSEvent) :
    (encodeMusicData evs).getD ((encodeMusicData evs).length - 1) 0 = 0xfc := by
  rw [encodeMusicData, List.map_append]
  have hx : (List.map (· % 256) [(0xfc : Nat)]) = [0xfc] := by decide
  rw [hx]
  have hlen : ((List.map (· % 256) (encodeMusicAux evs (-1))) ++ [(0xfc : Nat)]).length - 1 =
      (List.map (· % 256) (encodeMusicAux evs (-1))).length := by
    simp
  rw [hlen, getD_snoc_last]

theorem encodeMusicData_penultimate (evs : List IMSEvent)
    (h : 2 ≤ (encodeMusicData evs).length) :
    (encodeMusicData evs).getD ((encodeMusicData evs).length - 2) 0 ≠ 0xfc := by
  have hne : evs ≠ [] := by
    intro hcon
    subst hcon
    rw [encodeMusicData] at h
    simp [encodeMusicAux] at h
  obtain ⟨l, x, hl, hx⟩ := encodeMusicAux_last evs (-1) hne
  rw [encodeMusicData, hl]
  have hsplit : ((l ++ [x]) ++ [(0xfc : Nat)]).map (· % 256) =
      l.map (· % 256) ++ [x % 256] ++ [0xfc] := by
    simp
  rw [hsplit]
  have hlen : ((l.map (· % 256) ++ [x % 256]) ++ [(0xfc : Nat)]).length - 2 =
      (l.map (· % 256)).length := by
    simp
  rw [hlen]
  rw [List.append_assoc]
  rw [List.getD_append_right _ _ _ _ (le_refl _)]
  have hz : (l.map (· % 256)).length - (l.map (· % 256)).length = 0 := by omega
  rw [hz]
  simp only [List.singleton_append, List.getD_cons_zero]
  omega

/-- C3: for every event list and instrument-name list handed to
`IMSWriter`, the u32 `byteSize` field at offset 42 equals the length of the
encoded music-data region (provided it fits a u32, which `setUint32`
truncates otherwise), that region occupies offsets `71 .. 71+byteSize-1` of
the file, it ends with exactly one `0xFC` loop marker (its final byte is
`0xFC` and the byte before it, when present, is not), and the footer
separator byte 0 sits at offset `71 + byteSize`. -/
theorem ims_byteSize_and_terminator (evs : List IMSEvent) (names : List String)
    (sn : String) (bt dm : Nat)
    (h : (encodeMusicData (sortEvents evs)).length < 4294967296) :
    readU32LE (imsWrite ⟨evs, names, sn, bt, dm⟩) 42 =
      (encodeMusicData (sortEvents evs)).length ∧
    (∀ i, i < (encodeMusicData (sortEvents evs)).length →
      (imsWrite ⟨evs, names, sn, bt, dm⟩).getD (71 + i) 0 =
        (encodeMusicData (sortEvents evs)).getD i 0) ∧
    (imsWrite ⟨evs, names, sn, bt, dm⟩).getD
        (71 + (encodeMusicData (sortEvents evs)).length) 0 = 0 ∧
    (encodeMusicData (sortEvents evs)).getD
        ((encodeMusicData (sortEvents evs)).length - 1) 0 = 0xfc ∧
    (2 ≤ (encodeMusicData (sortEvents evs)).length →
      (encodeMusicData (sortEvents evs)).getD
        ((encodeMusicData (sortEvents evs)).length - 2) 0 ≠ 0xfc) := by
  refine ⟨?_, ?_, ?_, ?_, ?_⟩
  · have hk : ∀ k, k < 4 →
        (imsWrite ⟨evs, names, sn, bt, dm⟩).getD (42 + k) 0 =
          (u32le (encodeMusicData (sortEvents evs)).length).getD k 0 := by
      intro k hk
      rw [imsWrite_getD_header _ _ (by omega)]
      exact imsHeader_getD_42 sn _ dm bt k hk
    have h0 := hk 0 (by norm_num)
    have h1 := hk 1 (by norm_num)
    have h2 := hk 2 (by norm_num)
    have h3 := hk 3 (by norm_num)
    norm_num at h0 h1 h2 h3
    rw [readU32LE]
    norm_num
    rw [h0, h1, h2, h3]
    simp only [u32le, List.getD_cons_zero, List.getD_cons_succ]
    exact readU32LE_sum _ h
  · intro i hi
    exact imsWrite_getD_music _ i hi
  · exact imsWrite_getD_separator _
  · exact encodeMusicData_last _
  · exact encodeMusicData_penultimate _

/-- Witness for C3 at the empty writer: the music data is the lone `0xFC`
byte, `byteSize = 1`, separator at offset 72. -/
theorem ims_byteSize_and_terminator_witness :
    (encodeMusicData (sortEvents [])).length < 4294967296 ∧
    readU32LE (imsWrite ⟨[], [], "", 120, 0⟩) 42 =
      (encodeMusicData (sortEvents [])).length := by
  exact ⟨by decide, (ims_byteSize_and_terminator [] [] "" 120 0 (by decide)).1⟩

/-- C9: `IMSWriter.setTempo` clamps any integer tempo into `[1, 255]`
(`Math.max(1, Math.min(255, tempo))`), never fails, and the u16
`basicTempo` field at offset 60 of the written file holds exactly that
clamped value, so it always lies in `[1, 255]`. -/
theorem setTempo_clamped_field (tempo : Int) (evs : List IMSEvent)
    (names : List String) (sn : String) (dm : Nat) :
    (setTempoVal tempo : Int) = max 1 (min 255 tempo) ∧
    1 ≤ setTempoVal tempo ∧ setTempoVal tempo ≤ 255 ∧
    readU16LE (imsWrite ⟨evs, names, sn, setTempoVal tempo, dm⟩) 60 =
      setTempoVal tempo := by
  have hrange : 1 ≤ setTempoVal tempo ∧ setTempoVal tempo ≤ 255 := by
    rw [setTempoVal]
    omega
  refine ⟨by rw [setTempoVal]; omega, hrange.1, hrange.2, ?_⟩
  have hk : ∀ k, k < 2 →
      (imsWrite ⟨evs, names, sn, setTempoVal tempo, dm⟩).getD (60 + k) 0 =
        (u16le (setTempoVal tempo)).getD k 0 := by
    intro k hk
    rw [imsWrite_getD_header _ _ (by omega)]
    exact imsHeader_getD_60 sn _ dm _ k hk
  have h0 := hk 0 (by norm_num)
  have h1 := hk 1 (by norm_num)
  norm_num at h0 h1
  rw [readU16LE]
  norm_num
  rw [h0, h1]
  simp [u16le]
  omega

/-! ## OPL2 state tracker (opl-state-tracker.ts, constants.ts) -/

/-- Frequency numbers for the twelve half-tones (constants.ts). -/
def freqNums : List Nat := [343, 363, 385, 408, 432, 458, 485, 514, 544, 577, 611, 647]

/-- Voice (channel) owning each of the 18 slots (constants.ts). -/
def voiceMSlot : List Nat := [0, 1, 2, 0, 1, 2, 3, 4, 5, 3, 4, 5, 6, 7, 8, 6, 7, 8]

/-- Carrier flag of each slot: 0 = modulator, 1 = carrier (constants.ts). -/
def carrierSlot : List Nat := [0, 0, 0, 1, 1, 1, 0, 0, 0, 1, 1, 1, 0, 0, 0, 1, 1, 1]

structure OPLOperatorState where
  am : Bool
  vib : Bool
  egt : Bool
  ksr : Bool
  mult : Nat
  ksl : Nat
  level : Nat
  attack : Nat
  decay : Nat
  sustain : Nat
  release : Nat
  waveform : Nat
deriving DecidableEq

/-- Embeds `createDefaultOperator`: all zero except `level = 63`. -/
def createDefaultOperator : OPLOperatorState :=
  ⟨false, false, false, false, 0, 0, 63, 0, 0, 0, 0, 0⟩

/-- A channel: `op0`/`op1` model `operators[0]` (modulator) and
`operators[1]` (carrier). -/
structure OPLChannelState where
  op0 : OPLOperatorState
  op1 : OPLOperatorState
  fnum : Nat
  block : Nat
  keyOn : Bool
  feedback : Nat
  connection : Nat
deriving DecidableEq

def createDefaultChannel : OPLChannelState :=
  ⟨createDefaultOperator, createDefaultOperator, 0, 0, false, 0, 0⟩

structure ExtractedInstrument where
  id : Nat
  name : String
  params : List Nat
  hash : String
deriving DecidableEq

/-- The mutable fields of `OPLStateTracker`; the hash map is modelled as an
insertion-ordered association list (keys are only ever added once, so
first-match lookup coincides with `Map.get`). -/
structure OPLState where
  channels : List OPLChannelState
  instruments : List ExtractedInstrument
  instrumentHashMap : List (String × Nat)
  channelInstruments : List Int
  percussionMode : Bool
deriving DecidableEq

/-- The `OPLStateTracker` constructor: 9 default channels, channel
instrument indices all `-1`. -/
def initialOPLState : OPLState :=
  ⟨List.replicate 9 createDefaultChannel, [], [], List.replicate 9 (-1), false⟩

inductive OPLEvent where
  | noteOn (channel note volume instrumentIndex : Nat)
  | noteOff (channel note : Nat)
  | instrumentChange (channel instrumentIndex : Nat)
deriving DecidableEq

/-- Embeds `fnumBlockToMidi`: scan the 12 reference F-numbers keeping the first
strict improvement of `|fnum - refFnum|` (initial best diff is `Infinity`,
modelled by `none`), then `block * 12 + bestNote + 12`. -/
def fnumBlockToMidi (fnum block : Nat) : Nat :=
  let best := (List.range 12).foldl
    (fun acc noteInOctave =>
      let refFnum := freqNums.getD noteInOctave 0
      let diff := Nat.dist fnum refFnum
      match acc.2 with
      | none => (noteInOctave, some diff)
      | some bestDiff => if diff < bestDiff then (noteInOctave, some diff) else acc)
    ((0, none) : Nat × Option Nat)
  block * 12 + best.1 + 12

/-- Embeds `levelToVolume` always returns maximum volume 127. -/
def levelToVolume (_level : Nat) : Nat := 127

/-- Embeds `getSlotFromOffset`: compress the valid pattern `0..5, 8..13, 16..21`
of `regOffset % 32` into slot indices 0..17. -/
def getSlotFromOffset (regOffset : Nat) : Option Nat :=
  let offset := regOffset % 32
  if offset ≤ 5 then some offset
  else if 8 ≤ offset ∧ offset ≤ 13 then some (offset - 2)
  else if 16 ≤ offset ∧ offset ≤ 21 then some (offset - 4)
  else none

/-- In-place mutation `this.channels[channel] = f(...)` (the channel index
is always in range when called: dispatch guarantees `channel ≤ 8` and the
tracker owns exactly 9 channels). -/
def updateChannel (s : OPLState) (channel : Nat)
    (f : OPLChannelState → OPLChannelState) : OPLState :=
  let ch := s.channels.getD channel createDefaultChannel
  { s with channels := s.channels.set channel (f ch) }

/-- Select `operators[opIndex]` by the carrier flag. -/
def updateOp (isCarrier : Bool) (f : OPLOperatorState → OPLOperatorState)
    (ch : OPLChannelState) : OPLChannelState :=
  if isCarrier then { ch with op1 := f ch.op1 } else { ch with op0 := f ch.op0 }

/-- Shared slot resolution of the five per-operator register handlers. -/
def writeOperatorReg (s : OPLState) (regOffset : Nat)
    (f : OPLOperatorState → OPLOperatorState) : OPLState × Option OPLEvent :=
  match getSlotFromOffset regOffset with
  | none => (s, none)
  | some slot =>
    let channel := voiceMSlot.getD slot 0
    let isCarrier := carrierSlot.getD slot 0 = 1
    (updateChannel s channel (updateOp isCarrier f), none)

/-- Embeds `writeAVEK` (0x20-0x35). -/
def writeAVEK (s : OPLState) (reg val : Nat) : OPLState × Option OPLEvent :=
  writeOperatorReg s (reg - 0x20) fun op =>
    { op with
      am := val &&& 0x80 != 0
      vib := val &&& 0x40 != 0
      egt := val &&& 0x20 != 0
      ksr := val &&& 0x10 != 0
      mult := val &&& 0x0f }

/-- Embeds `writeKSL` (0x40-0x55). -/
def writeKSL (s : OPLState) (reg val : Nat) : OPLState × Option OPLEvent :=
  writeOperatorReg s (reg - 0x40) fun op =>
    { op with ksl := (val >>> 6) &&& 0x03, level := val &&& 0x3f }

/-- Embeds `writeAD` (0x60-0x75). -/
def writeAD (s : OPLState) (reg val : Nat) : OPLState × Option OPLEvent :=
  writeOperatorReg s (reg - 0x60) fun op =>
    { op with attack := (val >>> 4) &&& 0x0f, decay := val &&& 0x0f }

/-- Embeds `writeSR` (0x80-0x95). -/
def writeSR (s : OPLState) (reg val : Nat) : OPLState × Option OPLEvent :=
  writeOperatorReg s (reg - 0x80) fun op =>
    { op with sustain := (val >>> 4) &&& 0x0f, release := val &&& 0x0f }

/-- Embeds `writeWave` (0xE0-0xF5). -/
def writeWave (s : OPLState) (reg val : Nat) : OPLState × Option OPLEvent :=
  writeOperatorReg s (reg - 0xe0) fun op => { op with waveform := val &&& 0x03 }

/-- Embeds `writeFnumLow` (0xA0-0xA8): replace the low 8 F-number bits. -/
def writeFnumLow (s : OPLState) (reg val : Nat) : OPLState × Option OPLEvent :=
  let channel := reg - 0xa0
  if channel < 9 then
    (updateChannel s channel (fun ch => { ch with fnum := (ch.fnum &&& 0x300) ||| val }), none)
  else (s, none)

/-- Embeds `hashParams`: comma-join of `params` with decimal rendering. -/
def hashParams (params : List Nat) : String :=
  String.intercalate "," (params.map Nat.repr)

/-- Computes the padded id, `id.toString().padStart(2, ... )` with pad char zero. -/
def padStart2 (s : String) : String :=
  if s.length ≥ 2 then s else if s.length = 1 then "0" ++ s else "00"

/-- The generated instrument name `inst_NN`. -/
def mkInstName (id : Nat) : String := "inst_" ++ padStart2 (Nat.repr id)

/-- Embeds `operatorsToBnkParams`: the 28-byte BNK parameter vector. -/
def operatorsToBnkParams (ch : OPLChannelState) : List Nat :=
  [ch.op0.ksl, ch.op0.mult, ch.feedback, ch.op0.attack, ch.op0.sustain,
   if ch.op0.egt then 1 else 0, ch.op0.decay, ch.op0.release, ch.op0.level,
   if ch.op0.am then 1 else 0, if ch.op0.vib then 1 else 0, if ch.op0.ksr then 1 else 0,
   if ch.connection ≠ 0 then 0 else 1,
   ch.op1.ksl, ch.op1.mult, 0, ch.op1.attack, ch.op1.sustain,
   if ch.op1.egt then 1 else 0, ch.op1.decay, ch.op1.release, ch.op1.level,
   if ch.op1.am then 1 else 0, if ch.op1.vib then 1 else 0, if ch.op1.ksr then 1 else 0,
   0, ch.op0.waveform, ch.op1.waveform]

/-- Embeds `extractInstrument`: hash-cons the current channel patch, returning the
updated state and the instrument index. -/
def extractInstrument (s : OPLState) (channel : Nat) : OPLState × Nat :=
  let ch := s.channels.getD channel createDefaultChannel
  let params := operatorsToBnkParams ch
  let hash := hashParams params
  match List.lookup hash s.instrumentHashMap with
  | some existing => (s, existing)
  | none =>
    let id := s.instruments.length
    ({ s with
        instruments := s.instruments ++ [⟨id, mkInstName id, params, hash⟩]
        instrumentHashMap := s.instrumentHashMap ++ [(hash, id)] }, id)

/-- Embeds `writeKeyOn` (0xB0-0xB8): update key-on/block/fnum-high, then emit a
note-on on a false→true transition (interning the instrument and updating
the remembered per-channel index) or a note-off on true→false.  The local
`instrumentChange` event in the source is computed but discarded (only
`noteOn` is returned), which this model reflects by not emitting it. -/
def writeKeyOn (s : OPLState) (reg val : Nat) : OPLState × Option OPLEvent :=
  let channel := reg - 0xb0
  if channel < 9 then
    let ch := s.channels.getD channel createDefaultChannel
    let prevKeyOn := ch.keyOn
    let ch2 := { ch with
      keyOn := val &&& 0x20 != 0
      block := (val >>> 2) &&& 0x07
      fnum := (ch.fnum &&& 0xff) ||| ((val &&& 0x03) <<< 8) }
    let s2 := { s with channels := s.channels.set channel ch2 }
    if ch2.keyOn && !prevKeyOn then
      let ex := extractInstrument s2 channel
      let s3 := ex.1
      let instrumentIndex := ex.2
      let note := fnumBlockToMidi ch2.fnum ch2.block
      let volume := levelToVolume ch2.op1.level
      let s4 :=
        if s3.channelInstruments.getD channel (-1) ≠ (instrumentIndex : Int) then
          { s3 with channelInstruments :=
              s3.channelInstruments.set channel instrumentIndex }
        else s3
      (s4, some (.noteOn channel note volume instrumentIndex))
    else if !ch2.keyOn && prevKeyOn then
      (s2, some (.noteOff channel (fnumBlockToMidi ch2.fnum ch2.block)))
    else (s2, none)
  else (s, none)

/-- Embeds `writeFB` (0xC0-0xC8). -/
def writeFB (s : OPLState) (reg val : Nat) : OPLState × Option OPLEvent :=
  let channel := reg - 0xc0
  if channel < 9 then
    (updateChannel s channel (fun ch =>
      { ch with feedback := (val >>> 1) &&& 0x07, connection := val &&& 0x01 }), none)
  else (s, none)

/-- Embeds `OPLStateTracker.writeRegister`: dispatch on the register ranges of
constants.ts (`0xBD` first). -/
def writeRegister (s : OPLState) (reg val : Nat) : OPLState × Option OPLEvent :=
  if reg = 0xbd then
    ({ s with percussionMode := val &&& 0x20 != 0 }, none)
  else if 0x20 ≤ reg ∧ reg ≤ 0x35 then writeAVEK s reg val
  else if 0x40 ≤ reg ∧ reg ≤ 0x55 then writeKSL s reg val
  else if 0x60 ≤ reg ∧ reg ≤ 0x75 then writeAD s reg val
  else if 0x80 ≤ reg ∧ reg ≤ 0x95 then writeSR s reg val
  else if 0xe0 ≤ reg ∧ reg ≤ 0xf5 then writeWave s reg val
  else if 0xa0 ≤ reg ∧ reg ≤ 0xa8 then writeFnumLow s reg val
  else if 0xb0 ≤ reg ∧ reg ≤ 0xb8 then writeKeyOn s reg val
  else if 0xc0 ≤ reg ∧ reg ≤ 0xc8 then writeFB s reg val
  else (s, none)

/-! ## VGM parser (vgm-parser.ts) -/

structure VGMHeaderRec where
  magic : String
  eofOffset : Nat
  version : Nat
  gd3Offset : Nat
  totalSamples : Nat
  loopOffset : Nat
  loopSamples : Nat
  ym3812Clock : Nat
  dataOffset : Nat
deriving DecidableEq

/-- Embeds `parseHeader`: validate the magic, resolve the data offset (relative
value 0 at 0x34 means absolute 0x40), and read the YM3812 clock at 0x50
only when `byteLength > 0x54` (otherwise 0). -/
def parseHeader (bytes : List Nat) : Except String VGMHeaderRec :=
  let magic := String.mk [Char.ofNat (bytes.getD 0 0), Char.ofNat (bytes.getD 1 0),
      Char.ofNat (bytes.getD 2 0), Char.ofNat (bytes.getD 3 0)]
  if magic ≠ "Vgm " then .error "Invalid VGM magic"
  else
    let dataOffsetRel := readU32LE bytes 0x34
    .ok {
      magic := magic
      eofOffset := readU32LE bytes 0x04
      version := readU32LE bytes 0x08
      gd3Offset := readU32LE bytes 0x14
      totalSamples := readU32LE bytes 0x18
      loopOffset := readU32LE bytes 0x1c
      loopSamples := readU32LE bytes 0x20
      ym3812Clock := if bytes.length > 0x54 then readU32LE bytes 0x50 else 0
      dataOffset := if dataOffsetRel = 0 then 0x40 else 0x34 + dataOffsetRel }

/-- VGM command records (`VGMCommand` in types.ts); `stop` is the `end`
variant (a Lean keyword).  `absoluteSample` on a `wait` is the post-wait
clock. -/
inductive VGMCommand where
  | write (register value absoluteSample : Nat)
  | wait (samples absoluteSample : Nat)
  | stop (absoluteSample : Nat)
deriving DecidableEq

/-- Loop of `parseCommands`.  `fuel` only drives structural recursion:
every iteration advances `offset` by at least 1 and the loop runs only while
`offset < bytes.length`, so with `fuel = bytes.length` (as instantiated in
`parseCommands`) the zero-fuel base case is never reached. -/
def parseCommandsAux (bytes : List Nat) : Nat → Nat → Nat → List VGMCommand
  | 0, _, _ => []
  | fuel + 1, offset, absoluteSample =>
    if offset < bytes.length then
      let cmd := bytes.getD offset 0
      let o := offset + 1
      if cmd = 0x5a then
        .write (bytes.getD o 0) (bytes.getD (o + 1) 0) absoluteSample ::
          parseCommandsAux bytes fuel (o + 2) absoluteSample
      else if cmd = 0x61 then
        let samples := bytes.getD o 0 + 256 * bytes.getD (o + 1) 0
        .wait samples (absoluteSample + samples) ::
          parseCommandsAux bytes fuel (o + 2) (absoluteSample + samples)
      else if cmd = 0x62 then
        .wait 735 (absoluteSample + 735) ::
          parseCommandsAux bytes fuel o (absoluteSample + 735)
      else if cmd = 0x63 then
        .wait 882 (absoluteSample + 882) ::
          parseCommandsAux bytes fuel o (absoluteSample + 882)
      else if 0x70 ≤ cmd ∧ cmd ≤ 0x7f then
        let samples := (cmd &&& 0x0f) + 1
        .wait samples (absoluteSample + samples) ::
          parseCommandsAux bytes fuel o (absoluteSample + samples)
      else if cmd = 0x66 then
        [.stop absoluteSample]
      else if cmd = 0x4f ∨ cmd = 0x50 then
        parseCommandsAux bytes fuel (o + 1) absoluteSample
      else if 0x51 ≤ cmd ∧ cmd ≤ 0x5f then
        parseCommandsAux bytes fuel (o + 2) absoluteSample
      else if cmd = 0x67 then
        let blockSize := readU32LE bytes (o + 2)
        parseCommandsAux bytes fuel (o + 2 + 4 + blockSize) absoluteSample
      else if 0x80 ≤ cmd ∧ cmd ≤ 0x8f then
        parseCommandsAux bytes fuel o (absoluteSample + (cmd &&& 0x0f))
      else if cmd = 0xe0 then
        parseCommandsAux bytes fuel (o + 4) absoluteSample
      else
        parseCommandsAux bytes fuel o absoluteSample
    else []

def parseCommands (bytes : List Nat) (startOffset : Nat) : List VGMCommand :=
  parseCommandsAux bytes bytes.length startOffset 0

structure VGMDataRec where
  header : VGMHeaderRec
  commands : List VGMCommand
  warnedNoClock : Bool
deriving DecidableEq

/-- Embeds `parseVGM`: header then command stream; `warnedNoClock` records the
`console.warn` surfaced when the YM3812 clock reads as 0. -/
def parseVGM (bytes : List Nat) : Except String VGMDataRec := do
  let header ← parseHeader bytes
  .ok ⟨header, parseCommands bytes header.dataOffset, header.ym3812Clock == 0⟩

/-! ## Converter facade (converter.ts) and BNK writer (bnk-writer.ts) -/

/-- Computes `Math.round(a / b)` for `b > 0` on exact rationals:
`⌊(2a + b) / (2b)⌋` (JS rounds half toward `+∞`).  The JS source computes
this in double precision; the quantities reached here are well within the
exact range. -/
def jsRound (a b : Int) : Int := Int.fdiv (2 * a + b) (2 * b)

/-- Embeds `samplesToTicks`: `Math.round(samples * 4 * tempo / 44100)`. -/
def samplesToTicks (samples : Nat) (tempo : Int) : Int :=
  jsRound ((samples : Int) * (4 * tempo)) 44100

/-- Loop of `VGMToIMSConverter.processCommands`: arguments are the pending
commands, the tracker, the `channelInstruments` array owned by the converter, the
current sample clock, the next `orderIndex`, the tempo, and the events
accumulated so far. -/
def processCommandsAux : List VGMCommand → OPLState → List Int → Nat → Nat → Int →
    List IMSEvent → List IMSEvent × OPLState
  | [], tracker, _, _, _, _, events => (events, tracker)
  | cmd :: rest, tracker, chInsts, currentSample, orderIndex, tempo, events =>
    match cmd with
    | .write register value _ =>
      let wr := writeRegister tracker register value
      let tracker2 := wr.1
      match wr.2 with
      | some (.noteOn channel note volume instrumentIndex) =>
        let tick := samplesToTicks currentSample tempo
        if chInsts.getD channel (-1) ≠ (instrumentIndex : Int) then
          processCommandsAux rest tracker2 (chInsts.set channel instrumentIndex)
            currentSample (orderIndex + 2) tempo
            (events ++ [⟨0xc0, channel, [instrumentIndex], tick, some orderIndex⟩,
              ⟨0x90, channel, [note, volume], tick, some (orderIndex + 1)⟩])
        else
          processCommandsAux rest tracker2 chInsts currentSample (orderIndex + 1) tempo
            (events ++ [⟨0x90, channel, [note, volume], tick, some orderIndex⟩])
      | some (.noteOff channel note) =>
        processCommandsAux rest tracker2 chInsts currentSample (orderIndex + 1) tempo
          (events ++ [⟨0x90, channel, [note, 0],
            samplesToTicks currentSample tempo, some orderIndex⟩])
      | some (.instrumentChange _ _) =>
        processCommandsAux rest tracker2 chInsts currentSample orderIndex tempo events
      | none =>
        processCommandsAux rest tracker2 chInsts currentSample orderIndex tempo events
    | .wait _ absoluteSample =>
      processCommandsAux rest tracker chInsts absoluteSample orderIndex tempo events
    | .stop _ => (events, tracker)

/-- Embeds `VGMToIMSConverter.processCommands` applied to a fresh tracker. -/
def processCommands (cmds : List VGMCommand) (tempo : Int) :
    List IMSEvent × OPLState :=
  processCommandsAux cmds initialOPLState (List.replicate 9 (-1)) 0 0 tempo []

def defaultInst : ExtractedInstrument := ⟨0, "", [], ""⟩

/-- Embeds `BNKWriter.write`: 20-byte header, 12-byte directory entries in
instrument order, 30-byte data entries. -/
def bnkWrite (insts : List ExtractedInstrument) : List Nat :=
  u16le 1 ++ strBytesFixed "ADLIB-" 6 ++ u16le insts.length ++ u16le 0 ++
    u32le 20 ++ u32le (20 + 12 * insts.length) ++
    (List.range insts.length).flatMap (fun i =>
      u16le i ++ [0x01] ++ strBytesFixed ((insts.getD i defaultInst).name) 9) ++
    (List.range insts.length).flatMap (fun i =>
      [0, i % 256] ++ (List.range 28).map (fun j =>
        ((insts.getD i defaultInst).params.getD j 0) % 256))

structure ConversionResult where
  ims : List Nat
  bnk : List Nat
  instrumentCount : Nat
  eventCount : Nat
deriving DecidableEq

/-- Embeds `VGMToIMSConverter.convert` (with `convertVGMToIMS` defaults
`tempo = 120`, `songName = ""` supplied by the caller). -/
def convert (tempo : Int) (songName : String) (bytes : List Nat) :
    Except String ConversionResult := do
  let vgm ← parseVGM bytes
  let pc := processCommands vgm.commands tempo
  let names := pc.2.instruments.map (fun i => i.name)
  let w : IMSWriterState := {
    events := pc.1
    instrumentNames := names.map (fun s => s.take 8)
    songName := songName.take 30
    basicTempo := setTempoVal tempo
    dMode := if pc.2.percussionMode then 1 else 0 }
  .ok {
    ims := imsWrite w
    bnk := bnkWrite pc.2.instruments
    instrumentCount := pc.2.instruments.length
    eventCount := pc.1.length }

/-- The IMS event list a conversion feeds to the IMS writer. -/
def convertEvents (tempo : Int) (bytes : List Nat) : Except String (List IMSEvent) :=
  (parseVGM bytes).map (fun vgm => (processCommands vgm.commands tempo).1)

/-! ## Frame lemmas for writeRegister -/

theorem writeOperatorReg_only_channels (s : OPLState) (ro : Nat)
    (f : OPLOperatorState → OPLOperatorState) :
    ∃ c, (writeOperatorReg s ro f).1 = { s with channels := c } := by
  rw [writeOperatorReg]
  cases getSlotFromOffset ro with
  | none => exact ⟨s.channels, rfl⟩
  | some slot => exact ⟨_, rfl⟩

theorem writeFnumLow_only_channels (s : OPLState) (reg val : Nat) :
    ∃ c, (writeFnumLow s reg val).1 = { s with channels := c } := by
  rw [writeFnumLow]
  by_cases h : reg - 0xa0 < 9
  · rw [if_pos h]
    exact ⟨_, rfl⟩
  · rw [if_neg h]
    exact ⟨s.channels, rfl⟩

theorem writeFB_only_channels (s : OPLState) (reg val : Nat) :
    ∃ c, (writeFB s reg val).1 = { s with channels := c } := by
  rw [writeFB]
  by_cases h : reg - 0xc0 < 9
  · rw [if_pos h]
    exact ⟨_, rfl⟩
  · rw [if_neg h]
    exact ⟨s.channels, rfl⟩

/-- A 0xB0-0xB8 write that is not a false→true key-on transition only
rewrites the channel array. -/
theorem writeKeyOn_only_channels (s : OPLState) (reg val : Nat)
    (h : ¬ ((s.channels.getD (reg - 0xb0) createDefaultChannel).keyOn = false ∧
      val &&& 0x20 ≠ 0)) :
    ∃ c, (writeKeyOn s reg val).1 = { s with channels := c } := by
  have hcond : ((val &&& 0x20 != 0) &&
      !(s.channels.getD (reg - 0xb0) createDefaultChannel).keyOn) = false := by
    cases hk : (s.channels.getD (reg - 0xb0) createDefaultChannel).keyOn
    · have hval : val &&& 0x20 = 0 := by
        by_contra hv
        exact h ⟨hk, hv⟩
      simp [hval]
    · simp [hk]
  rw [writeKeyOn]
  by_cases h9 : reg - 0xb0 < 9
  · rw [if_pos h9]
    simp only [hcond, Bool.false_eq_true, if_false]
    split
    · exact ⟨_, rfl⟩
    · exact ⟨_, rfl⟩
  · rw [if_neg h9]
    exact ⟨s.channels, rfl⟩

/-- C10 helper: the condition under which a register write is a key-on
transition on the addressed channel. -/
def keyOnFlip (s : OPLState) (reg val : Nat) : Prop :=
  0xb0 ≤ reg ∧ reg ≤ 0xb8 ∧
    (s.channels.getD (reg - 0xb0) createDefaultChannel).keyOn = false ∧
    val &&& 0x20 ≠ 0

/-- C10: `writeRegister` leaves the interned instrument table, the hash
map, and the per-channel remembered instrument indices untouched unless the
register is in 0xB0..0xB8 and the write flips the key-on bit of that channel from
false to true; in particular only such transitions can intern a new
instrument or change the instrument index remembered for a channel. -/
theorem writeRegister_frame (s : OPLState) (reg val : Nat)
    (h : ¬ keyOnFlip s reg val) :
    (writeRegister s reg val).1.instruments = s.instruments ∧
    (writeRegister s reg val).1.instrumentHashMap = s.instrumentHashMap ∧
    (writeRegister s reg val).1.channelInstruments = s.channelInstruments := by
  have only_channels : (∃ c, (writeRegister s reg val).1 = { s with channels := c }) ∨
      (writeRegister s reg val).1 = { s with percussionMode := val &&& 0x20 != 0 } ∨
      (writeRegister s reg val).1 = s := by
    rw [writeRegister]
    by_cases hbd : reg = 0xbd
    · rw [if_pos hbd]
      exact Or.inr (Or.inl rfl)
    rw [if_neg hbd]
    by_cases h1 : 0x20 ≤ reg ∧ reg ≤ 0x35
    · rw [if_pos h1]; exact Or.inl (writeOperatorReg_only_channels _ _ _)
    rw [if_neg h1]
    by_cases h2 : 0x40 ≤ reg ∧ reg ≤ 0x55
    · rw [if_pos h2]; exact Or.inl (writeOperatorReg_only_channels _ _ _)
    rw [if_neg h2]
    by_cases h3 : 0x60 ≤ reg ∧ reg ≤ 0x75
    · rw [if_pos h3]; exact Or.inl (writeOperatorReg_only_channels _ _ _)
    rw [if_neg h3]
    by_cases h4 : 0x80 ≤ reg ∧ reg ≤ 0x95
    · rw [if_pos h4]; exact Or.inl (writeOperatorReg_only_channels _ _ _)
    rw [if_neg h4]
    by_cases h5 : 0xe0 ≤ reg ∧ reg ≤ 0xf5
    · rw [if_pos h5]; exact Or.inl (writeOperatorReg_only_channels _ _ _)
    rw [if_neg h5]
    by_cases h6 : 0xa0 ≤ reg ∧ reg ≤ 0xa8
    · rw [if_pos h6]; exact Or.inl (writeFnumLow_only_channels _ _ _)
    rw [if_neg h6]
    by_cases h7 : 0xb0 ≤ reg ∧ reg ≤ 0xb8
    · rw [if_pos h7]
      refine Or.inl (writeKeyOn_only_channels _ _ _ ?_)
      intro hcon
      exact h ⟨h7.1, h7.2, hcon.1, hcon.2⟩
    rw [if_neg h7]
    by_cases h8 : 0xc0 ≤ reg ∧ reg ≤ 0xc8
    · rw [if_pos h8]; exact Or.inl (writeFB_only_channels _ _ _)
    rw [if_neg h8]
    exact Or.inr (Or.inr rfl)
  rcases only_channels with ⟨c, hc⟩ | hc | hc <;> rw [hc] <;> exact ⟨rfl, rfl, rfl⟩

/-- Witness for C10: an 0x20-range operator write on a fresh tracker leaves
the instrument table and channel indices untouched. -/
theorem writeRegister_frame_witness :
    ¬ keyOnFlip initialOPLState 0x20 0xff ∧
    (writeRegister initialOPLState 0x20 0xff).1.instruments =
      initialOPLState.instruments ∧
    (writeRegister initialOPLState 0x20 0xff).1.channelInstruments =
      initialOPLState.channelInstruments := by
  have hnot : ¬ keyOnFlip initialOPLState 0x20 0xff := by
    rw [keyOnFlip]
    intro hcon
    omega
  have hfr := writeRegister_frame initialOPLState 0x20 0xff hnot
  exact ⟨hnot, hfr.1, hfr.2.2⟩

/-! ## Percussion-mode tracking (C6) -/

theorem extractInstrument_percussionMode (s : OPLState) (ch : Nat) :
    (extractInstrument s ch).1.percussionMode = s.percussionMode := by
  rw [extractInstrument]
  split
  · rfl
  · rfl

theorem writeKeyOn_percussionMode (s : OPLState) (reg val : Nat) :
    (writeKeyOn s reg val).1.percussionMode = s.percussionMode := by
  simp only [writeKeyOn]
  by_cases h9 : reg - 0xb0 < 9
  · rw [if_pos h9]
    split
    · split
      · simp [extractInstrument_percussionMode]
      · simp [extractInstrument_percussionMode]
    · split
      · rfl
      · rfl
  · rw [if_neg h9]

/-- Each register write sets `percussionMode` on a 0xBD write (to bit 5 of
the value) and leaves it unchanged otherwise. -/
theorem writeRegister_percussionMode (s : OPLState) (reg val : Nat) :
    (writeRegister s reg val).1.percussionMode =
      if reg = 0xbd then (val &&& 0x20 != 0) else s.percussionMode := by
  by_cases hbd : reg = 0xbd
  · rw [writeRegister, if_pos hbd, if_pos hbd]
  rw [if_neg hbd, writeRegister, if_neg hbd]
  by_cases h1 : 0x20 ≤ reg ∧ reg ≤ 0x35
  · rw [if_pos h1]
    obtain ⟨c, hc⟩ : ∃ c, (writeAVEK s reg val).1 = { s with channels := c } := by
      unfold writeAVEK; exact writeOperatorReg_only_channels _ _ _
    rw [hc]
  rw [if_neg h1]
  by_cases h2 : 0x40 ≤ reg ∧ reg ≤ 0x55
  · rw [if_pos h2]
    obtain ⟨c, hc⟩ : ∃ c, (writeKSL s reg val).1 = { s with channels := c } := by
      unfold writeKSL; exact writeOperatorReg_only_channels _ _ _
    rw [hc]
  rw [if_neg h2]
  by_cases h3 : 0x60 ≤ reg ∧ reg ≤ 0x75
  · rw [if_pos h3]
    obtain ⟨c, hc⟩ : ∃ c, (writeAD s reg val).1 = { s with channels := c } := by
      unfold writeAD; exact writeOperatorReg_only_channels _ _ _
    rw [hc]
  rw [if_neg h3]
  by_cases h4 : 0x80 ≤ reg ∧ reg ≤ 0x95
  · rw [if_pos h4]
    obtain ⟨c, hc⟩ : ∃ c, (writeSR s reg val).1 = { s with channels := c } := by
      unfold writeSR; exact writeOperatorReg_only_channels _ _ _
    rw [hc]
  rw [if_neg h4]
  by_cases h5 : 0xe0 ≤ reg ∧ reg ≤ 0xf5
  · rw [if_pos h5]
    obtain ⟨c, hc⟩ : ∃ c, (writeWave s reg val).1 = { s with channels := c } := by
      unfold writeWave; exact writeOperatorReg_only_channels _ _ _
    rw [hc]
  rw [if_neg h5]
  by_cases h6 : 0xa0 ≤ reg ∧ reg ≤ 0xa8
  · rw [if_pos h6]
    obtain ⟨c, hc⟩ := writeFnumLow_only_channels s reg val
    rw [hc]
  rw [if_neg h6]
  by_cases h7 : 0xb0 ≤ reg ∧ reg ≤ 0xb8
  · rw [if_pos h7]
    exact writeKeyOn_percussionMode s reg val
  rw [if_neg h7]
  by_cases h8 : 0xc0 ≤ reg ∧ reg ≤ 0xc8
  · rw [if_pos h8]
    obtain ⟨c, hc⟩ := writeFB_only_channels s reg val
    rw [hc]
  rw [if_neg h8]

/-- The commands actually processed: everything before the first `end`
command (the converter loop `break`s there). -/
def upToEnd (cmds : List VGMCommand) : List VGMCommand :=
  cmds.takeWhile (fun c => match c with | .stop _ => false | _ => true)

/-- Modelled from the spec (corrected form): the state of the rhythm
register after the command stream — each `0xBD` write overwrites the flag
with bit 5 of its value, so the last such write wins. -/
def rhythmFoldStep (b : Bool) (c : VGMCommand) : Bool :=
  match c with
  | .write r v _ => if r = 0xbd then v &&& 0x20 != 0 else b
  | _ => b

def rhythmFlagSpec (cmds : List VGMCommand) : Bool :=
  (upToEnd cmds).foldl rhythmFoldStep false

theorem processCommandsAux_percussionMode (cmds : List VGMCommand) :
    ∀ (s : OPLState) (chInsts : List Int) (cur oi : Nat) (tempo : Int)
      (events : List IMSEvent),
    (processCommandsAux cmds s chInsts cur oi tempo events).2.percussionMode =
      (upToEnd cmds).foldl rhythmFoldStep s.percussionMode := by
  induction cmds with
  | nil => intro s _ _ _ _ _; rfl
  | cons c rest ih =>
    intro s chInsts cur oi tempo events
    cases c with
    | write register value a =>
      have hstep : (upToEnd (VGMCommand.write register value a :: rest)).foldl
          rhythmFoldStep s.percussionMode =
          (upToEnd rest).foldl rhythmFoldStep
            (if register = 0xbd then (value &&& 0x20 != 0) else s.percussionMode) := by
        simp [upToEnd, List.takeWhile_cons, rhythmFoldStep]
      rw [hstep]
      rw [processCommandsAux]
      have hperc := writeRegister_percussionMode s register value
      cases hwr : (writeRegister s register value).2 with
      | none =>
        simp only
        rw [ih]
        rw [hperc]
      | some ev =>
        cases ev with
        | noteOn channel note volume instrumentIndex =>
          simp only
          split
          · rw [ih, hperc]
          · rw [ih, hperc]
        | noteOff channel note =>
          simp only
          rw [ih, hperc]
        | instrumentChange channel instrumentIndex =>
          simp only
          rw [ih, hperc]
    | wait samples a =>
      have hstep : (upToEnd (VGMCommand.wait samples a :: rest)).foldl
          rhythmFoldStep s.percussionMode =
          (upToEnd rest).foldl rhythmFoldStep s.percussionMode := by
        simp [upToEnd, List.takeWhile_cons, rhythmFoldStep]
      rw [hstep, processCommandsAux]
      exact ih s chInsts a oi tempo events
    | stop a =>
      rw [processCommandsAux]
      have hstep : upToEnd (VGMCommand.stop a :: rest) = [] := by
        rw [upToEnd, List.takeWhile_cons]
        simp
      rw [hstep]
      rfl

/-- C6 (amended): the `dMode` byte at offset 58 of the produced IMS file is
1 exactly when the *last* `0x5A 0xBD vv` write before the end marker has
`vv & 0x20 != 0` — the tracker mirrors the chip register, so a later write
with bit 5 clear resets the flag (detection is not sticky). -/
theorem dmode_equals_last_rhythm_write (tempo : Int) (sn : String)
    (bytes : List Nat) (vgm : VGMDataRec) (h : parseVGM bytes = Except.ok vgm) :
    (convert tempo sn bytes).toOption.map (fun r => r.ims.getD 58 0) =
      some (if rhythmFlagSpec vgm.commands then 1 else 0) := by
  have hconv : convert tempo sn bytes = Except.ok {
      ims := imsWrite {
        events := (processCommands vgm.commands tempo).1
        instrumentNames := ((processCommands vgm.commands tempo).2.instruments.map
          (fun i => i.name)).map (fun s => s.take 8)
        songName := sn.take 30
        basicTempo := setTempoVal tempo
        dMode := if (processCommands vgm.commands tempo).2.percussionMode then 1 else 0 }
      bnk := bnkWrite (processCommands vgm.commands tempo).2.instruments
      instrumentCount := (processCommands vgm.commands tempo).2.instruments.length
      eventCount := (processCommands vgm.commands tempo).1.length } := by
    rw [convert, h]
    rfl
  rw [hconv]
  refine congrArg some ?_
  dsimp only
  rw [imsWrite_getD_header _ _ (by omega), imsHeader_getD_58]
  have hperc : (processCommands vgm.commands tempo).2.percussionMode =
      rhythmFlagSpec vgm.commands := by
    rw [processCommands]
    rw [processCommandsAux_percussionMode]
    rfl
  rw [hperc]
  cases rhythmFlagSpec vgm.commands <;> rfl

def vgmHeader64 : List Nat := [0x56, 0x67, 0x6d, 0x20] ++ List.replicate 60 0

def minimalVGMBytes : List Nat := vgmHeader64 ++ [0x66]

def minimalVGMData : VGMDataRec :=
  ⟨⟨"Vgm ", 0, 0, 0, 0, 0, 0, 0, 0x40⟩, [.stop 0], true⟩

/-- Witness for C6 (amended) at the minimal VGM: no 0xBD write, `dMode = 0`. -/
theorem dmode_equals_last_rhythm_write_witness :
    parseVGM minimalVGMBytes = Except.ok minimalVGMData ∧
    (convert 120 "" minimalVGMBytes).toOption.map (fun r => r.ims.getD 58 0) =
      some (if rhythmFlagSpec minimalVGMData.commands then 1 else 0) :=
  ⟨rfl, dmode_equals_last_rhythm_write 120 "" minimalVGMBytes minimalVGMData rfl⟩

def rhythmOnOffBytes : List Nat :=
  vgmHeader64 ++ [0x5a, 0xbd, 0x20, 0x5a, 0xbd, 0x00, 0x66]

/-- C6 (counterexample): a VGM containing the write `0x5A 0xBD 0x20`
(`0x20 & 0x20 != 0`) followed by `0x5A 0xBD 0x00` produces `dMode = 0`, not
1: the later write clears the percussion flag. -/
theorem dmode_rhythm_write_not_sticky :
    (parseVGM rhythmOnOffBytes).toOption.map (fun v => v.commands) =
      some [.write 0xbd 0x20 0, .write 0xbd 0x00 0, .stop 0] ∧
    (0x20 : Nat) &&& 0x20 ≠ 0 ∧
    (convert 120 "" rhythmOnOffBytes).toOption.map (fun r => r.ims.getD 58 0) =
      some 0 := by
  refine ⟨by decide, by decide, rfl⟩

/-! ## Spec scenario 2 (C1) -/

def scenario2Bytes : List Nat :=
  vgmHeader64 ++ [0x5a, 0xa0, 0x72, 0x5a, 0xb0, 0x2e, 0x61, 0x44, 0xac,
    0x5a, 0xb0, 0x0e, 0x66]

/-- The events the converter actually produces for scenario 2: note 58
(f-number 626 is nearest to `freqNums[10] = 611`, distance 15, not to
`freqNums[11] = 647`, distance 21, so the note is `3*12 + 10 + 12 = 58`). -/
def scenario2Events58 : List IMSEvent :=
  [⟨0xc0, 0, [0], 0, some 0⟩, ⟨0x90, 0, [58, 127], 0, some 1⟩,
   ⟨0x90, 0, [58, 0], 480, some 2⟩]

/-- The event list the claim expects, with note 59. -/
def scenario2Events59 : List IMSEvent :=
  [⟨0xc0, 0, [0], 0, some 0⟩, ⟨0x90, 0, [59, 127], 0, some 1⟩,
   ⟨0x90, 0, [59, 0], 480, some 2⟩]

/-- C1 (counterexample): converting the scenario-2 VGM with tempo 120 does
not produce the claimed sequence with note 59; the produced notes are 58. -/
theorem scenario2_claimed_events_false :
    convertEvents 120 scenario2Bytes = Except.ok scenario2Events58 ∧
    scenario2Events58 ≠ scenario2Events59 :=
  ⟨rfl, by decide⟩

/-- C1 (amended): converting the scenario-2 VGM with tempo 120 produces
exactly instrument-change 0xC0/ch0 index 0 at tick 0, note-on 0x90/ch0
`{58, 127}` at tick 0, and note-off 0x90/ch0 `{58, 0}` at tick 480, in that
order. -/
theorem scenario2_events_amended :
    convertEvents 120 scenario2Bytes = Except.ok scenario2Events58 := rfl

/-! ## YM3812 clock default (C7) -/

/-- C7 (amended): header parsing takes the YM3812 clock as 0 exactly when
the buffer length does not *exceed* 0x54 bytes (`byteLength > 0x54` is the
source guard), and reads the u32 at 0x50 only for lengths of at least 0x55
— at length exactly 0x54 the four clock bytes exist but are not read. -/
theorem ym3812Clock_boundary (bytes : List Nat) (h : VGMHeaderRec)
    (hok : parseHeader bytes = Except.ok h) :
    (bytes.length ≤ 0x54 → h.ym3812Clock = 0) ∧
    (0x54 < bytes.length → h.ym3812Clock = readU32LE bytes 0x50) := by
  simp only [parseHeader] at hok
  split at hok
  · exact absurd hok (by simp)
  · have hrec := Except.ok.inj hok
    constructor
    · intro hle
      rw [← hrec]
      dsimp only
      rw [if_neg (by omega)]
    · intro hlt
      rw [← hrec]
      dsimp only
      rw [if_pos (by omega)]

def clockBytes84 : List Nat :=
  [0x56, 0x67, 0x6d, 0x20] ++ List.replicate 76 0 ++ [1, 0, 0, 0]

/-- C7 (counterexample): a valid-magic buffer of exactly 0x54 bytes whose
u32 at 0x50 is 1 still parses with clock 0 — the buffer *does* reach 0x54
bytes, so the claimed boundary (`< 0x54`) is off by one. -/
theorem ym3812Clock_at_exactly_84_bytes :
    clockBytes84.length = 0x54 ∧
    readU32LE clockBytes84 0x50 = 1 ∧
    (parseHeader clockBytes84).toOption.map (fun h => h.ym3812Clock) = some 0 := by
  refine ⟨by decide, by decide, rfl⟩

/-- Witness for C7 (amended) at the same concrete buffer. -/
theorem ym3812Clock_boundary_witness :
    clockBytes84.length ≤ 0x54 ∧
    (parseHeader clockBytes84).toOption.map (fun h => h.ym3812Clock) = some 0 := by
  have hok : parseHeader clockBytes84 = Except.ok
      ⟨"Vgm ", 0, 0, 0, 0, 0, 0, 0, 0x40⟩ := rfl
  have hb := (ym3812Clock_boundary clockBytes84 _ hok).1 (by decide)
  exact ⟨by decide, by rw [hok]; exact congrArg some hb⟩

/-! ## Instrument-count wrap (C8) -/

theorem bnkWrite_getD_count (insts : List ExtractedInstrument) (k : Nat) (hk : k < 2) :
    (bnkWrite insts).getD (8 + k) 0 = (u16le insts.length).getD k 0 := by
  rw [bnkWrite]
  rw [List.getD_append _ _ _ _ (by
    simp [List.length_append, u16le, u32le, strBytesFixed_length]; omega)]
  rw [List.getD_append _ _ _ _ (by
    simp [List.length_append, u16le, u32le, strBytesFixed_length]; omega)]
  rw [List.getD_append _ _ _ _ (by
    simp [List.length_append, u16le, u32le, strBytesFixed_length]; omega)]
  rw [List.getD_append _ _ _ _ (by
    simp [List.length_append, u16le, u32le, strBytesFixed_length]; omega)]
  rw [List.getD_append _ _ _ _ (by
    simp [List.length_append, u16le, u32le, strBytesFixed_length]; omega)]
  rw [List.getD_append_right _ _ _ _ (by
    simp [List.length_append, u16le, strBytesFixed_length])]
  have hpre : 8 + k - (u16le 1 ++ strBytesFixed "ADLIB-" 6).length = k := by
    simp [List.length_append, u16le, strBytesFixed_length]
  rw [hpre]

/-- Shared helper: the u16 `insMaxNum` field at offset 8 of every emitted
BNK file is the instrument count reduced modulo 2^16 (the `setUint16`
conversion). -/
theorem bnkWrite_insCount_field (insts : List ExtractedInstrument) :
    readU16LE (bnkWrite insts) 8 = insts.length % 65536 := by
  have h0 := bnkWrite_getD_count insts 0 (by norm_num)
  have h1 := bnkWrite_getD_count insts 1 (by norm_num)
  norm_num at h0 h1
  rw [readU16LE]
  norm_num
  rw [h0, h1]
  simp [u16le]
  omega

/-- C8 (amended): the transcoder has no instrument-count check and cannot
fail on overflow — `BNKWriter.write` succeeds for every instrument list and
stores `count % 65536` in the u16 `insMaxNum` header field (and the IMS
footer u16 `insNum` wraps the same way), so more than 65535 interned
instruments produce a wrapped count rather than an `InstrumentOverflow`
error. -/
theorem instrument_overflow_not_detected (insts : List ExtractedInstrument) :
    readU16LE (bnkWrite insts) 8 = insts.length % 65536 :=
  bnkWrite_insCount_field insts

def dummyInst : ExtractedInstrument := ⟨0, "x", List.replicate 28 0, "h"⟩

/-- C8 (counterexample): with 65536 instruments (more than 65535), the BNK
writer succeeds and its `insMaxNum` field reads 0, a wrapped count — no
tagged `InstrumentOverflow` failure exists anywhere in the pipeline (the
writers are total functions). -/
theorem instrument_overflow_wraps_to_zero :
    (List.replicate 65536 dummyInst).length = 65536 ∧
    readU16LE (bnkWrite (List.replicate 65536 dummyInst)) 8 = 0 := by
  refine ⟨List.length_replicate 65536 dummyInst, ?_⟩
  rw [bnkWrite_insCount_field, List.length_replicate]

/-! ## BNK directory order (C4) -/

/-- ASCII lower-casing as performed by `toLowerCase` on the names at hand
(all ASCII). -/
def lowerChar (c : Char) : Char :=
  if 'A' ≤ c ∧ c ≤ 'Z' then Char.ofNat (c.toNat + 32) else c

def lowerStr (s : String) : String := String.mk (s.data.map lowerChar)

/-- JavaScript `<` on strings: lexicographic comparison of code units. -/
def lexLtChars : List Char → List Char → Bool
  | [], [] => false
  | [], _ :: _ => true
  | _ :: _, [] => false
  | a :: as, b :: bs =>
    if a.toNat < b.toNat then true
    else if b.toNat < a.toNat then false
    else lexLtChars as bs

def jsStrLt (a b : String) : Bool := lexLtChars a.data b.data

theorem extractInstrument_instruments_shape (s : OPLState) (ch : Nat) :
    (extractInstrument s ch).1.instruments = s.instruments ∨
    ∃ p hh, (extractInstrument s ch).1.instruments =
      s.instruments ++ [⟨s.instruments.length, mkInstName s.instruments.length, p, hh⟩] := by
  rw [extractInstrument]
  split
  · exact Or.inl rfl
  · exact Or.inr ⟨_, _, rfl⟩

theorem writeKeyOn_instruments_shape (s : OPLState) (reg val : Nat) :
    (writeKeyOn s reg val).1.instruments = s.instruments ∨
    ∃ p hh, (writeKeyOn s reg val).1.instruments =
      s.instruments ++ [⟨s.instruments.length, mkInstName s.instruments.length, p, hh⟩] := by
  simp only [writeKeyOn]
  by_cases h9 : reg - 0xb0 < 9
  · rw [if_pos h9]
    split
    · split
      · exact extractInstrument_instruments_shape _ _
      · exact extractInstrument_instruments_shape _ _
    · split
      · exact Or.inl rfl
      · exact Or.inl rfl
  · rw [if_neg h9]
    exact Or.inl rfl

/-- Each register write either leaves the instrument table unchanged or
appends one instrument whose `name` is `inst_<table length>`. -/
theorem writeRegister_instruments_shape (s : OPLState) (reg val : Nat) :
    (writeRegister s reg val).1.instruments = s.instruments ∨
    ∃ p hh, (writeRegister s reg val).1.instruments =
      s.instruments ++ [⟨s.instruments.length, mkInstName s.instruments.length, p, hh⟩] := by
  by_cases hbd : reg = 0xbd
  · rw [writeRegister, if_pos hbd]
    exact Or.inl rfl
  rw [writeRegister, if_neg hbd]
  by_cases h1 : 0x20 ≤ reg ∧ reg ≤ 0x35
  · rw [if_pos h1]
    obtain ⟨c, hc⟩ : ∃ c, (writeAVEK s reg val).1 = { s with channels := c } := by
      unfold writeAVEK; exact writeOperatorReg_only_channels _ _ _
    rw [hc]; exact Or.inl rfl
  rw [if_neg h1]
  by_cases h2 : 0x40 ≤ reg ∧ reg ≤ 0x55
  · rw [if_pos h2]
    obtain ⟨c, hc⟩ : ∃ c, (writeKSL s reg val).1 = { s with channels := c } := by
      unfold writeKSL; exact writeOperatorReg_only_channels _ _ _
    rw [hc]; exact Or.inl rfl
  rw [if_neg h2]
  by_cases h3 : 0x60 ≤ reg ∧ reg ≤ 0x75
  · rw [if_pos h3]
    obtain ⟨c, hc⟩ : ∃ c, (writeAD s reg val).1 = { s with channels := c } := by
      unfold writeAD; exact writeOperatorReg_only_channels _ _ _
    rw [hc]; exact Or.inl rfl
  rw [if_neg h3]
  by_cases h4 : 0x80 ≤ reg ∧ reg ≤ 0x95
  · rw [if_pos h4]
    obtain ⟨c, hc⟩ : ∃ c, (writeSR s reg val).1 = { s with channels := c } := by
      unfold writeSR; exact writeOperatorReg_only_channels _ _ _
    rw [hc]; exact Or.inl rfl
  rw [if_neg h4]
  by_cases h5 : 0xe0 ≤ reg ∧ reg ≤ 0xf5
  · rw [if_pos h5]
    obtain ⟨c, hc⟩ : ∃ c, (writeWave s reg val).1 = { s with channels := c } := by
      unfold writeWave; exact writeOperatorReg_only_channels _ _ _
    rw [hc]; exact Or.inl rfl
  rw [if_neg h5]
  by_cases h6 : 0xa0 ≤ reg ∧ reg ≤ 0xa8
  · rw [if_pos h6]
    obtain ⟨c, hc⟩ := writeFnumLow_only_channels s reg val
    rw [hc]; exact Or.inl rfl
  rw [if_neg h6]
  by_cases h7 : 0xb0 ≤ reg ∧ reg ≤ 0xb8
  · rw [if_pos h7]
    exact writeKeyOn_instruments_shape s reg val
  rw [if_neg h7]
  by_cases h8 : 0xc0 ≤ reg ∧ reg ≤ 0xc8
  · rw [if_pos h8]
    obtain ⟨c, hc⟩ := writeFB_only_channels s reg val
    rw [hc]; exact Or.inl rfl
  rw [if_neg h8]
  exact Or.inl rfl

/-- The instrument table of a reachable tracker state carries exactly the
generated names `inst_00, inst_01, ...` in interning order. -/
def instNamesOk (s : OPLState) : Prop :=
  s.instruments.map (fun i => i.name) =
    (List.range s.instruments.length).map mkInstName

theorem instNamesOk_preserved (s : OPLState) (reg val : Nat)
    (h : instNamesOk s) : instNamesOk (writeRegister s reg val).1 := by
  rcases writeRegister_instruments_shape s reg val with heq | ⟨p, hh, heq⟩
  · rw [instNamesOk, heq]
    exact h
  · rw [instNamesOk, heq]
    rw [List.map_append, List.length_append]
    rw [instNamesOk] at h
    rw [h]
    have hr : List.range (s.instruments.length + [(⟨s.instruments.length,
        mkInstName s.instruments.length, p, hh⟩ : ExtractedInstrument)].length) =
        List.range s.instruments.length ++ [s.instruments.length] := by
      rw [List.length_singleton, List.range_succ]
    rw [hr, List.map_append]
    rfl

/-- Folding the tracker over any list of `(register, value)` writes -- the
shape of every tracker state reached by a conversion. -/
def applyWrites (ws : List (Nat × Nat)) : OPLState :=
  ws.foldl (fun s rv => (writeRegister s rv.1 rv.2).1) initialOPLState

theorem applyWrites_instNamesOk (ws : List (Nat × Nat)) :
    instNamesOk (applyWrites ws) := by
  have hgen : ∀ (l : List (Nat × Nat)) (s : OPLState), instNamesOk s →
      instNamesOk (l.foldl (fun s rv => (writeRegister s rv.1 rv.2).1) s) := by
    intro l
    induction l with
    | nil => intro s hs; exact hs
    | cons w rest ih =>
      intro s hs
      exact ih _ (instNamesOk_preserved s w.1 w.2 hs)
  exact hgen ws initialOPLState rfl

set_option maxRecDepth 8000 in
theorem mkInstNames_100_sorted :
    ((List.range 100).map mkInstName).Pairwise
      (fun a b => jsStrLt (lowerStr a) (lowerStr b) = true) := by
  decide

theorem mkInstNames_sorted_of_le_100 (n : Nat) (h : n ≤ 100) :
    ((List.range n).map mkInstName).Pairwise
      (fun a b => jsStrLt (lowerStr a) (lowerStr b) = true) := by
  have hsub : List.Sublist ((List.range n).map mkInstName)
      ((List.range 100).map mkInstName) :=
    List.Sublist.map mkInstName (List.range_sublist.mpr h)
  exact mkInstNames_100_sorted.sublist hsub

/-- C4 (amended): the BNK directory holds the instruments in interning
order with the generated names `inst_NN` (no sorting pass and no
suffix-collision mechanism exist in the writer); for every reachable
tracker state those names are strictly ascending under case-insensitive
code-unit comparison *provided at most 100 instruments were interned* —
beyond that `inst_100` follows `inst_99` but compares below it. -/
theorem bnk_directory_sorted_upto_100 (ws : List (Nat × Nat))
    (h : (applyWrites ws).instruments.length ≤ 100) :
    ((applyWrites ws).instruments.map (fun i => i.name)).Pairwise
      (fun a b => jsStrLt (lowerStr a) (lowerStr b) = true) := by
  have hnames := applyWrites_instNamesOk ws
  rw [instNamesOk] at hnames
  rw [hnames]
  exact mkInstNames_sorted_of_le_100 _ h

/-- Witness for C4 (amended): a single key-on interns one instrument and
the one-entry directory is trivially sorted. -/
theorem bnk_directory_sorted_upto_100_witness :
    (applyWrites [(0xb0, 0x20)]).instruments.length ≤ 100 ∧
    ((applyWrites [(0xb0, 0x20)]).instruments.map (fun i => i.name)).Pairwise
      (fun a b => jsStrLt (lowerStr a) (lowerStr b) = true) :=
  ⟨by decide, bnk_directory_sorted_upto_100 [(0xb0, 0x20)] (by decide)⟩

/-- One iteration of the 101-patch VGM trace behind the C4 counterexample:
set a fresh channel-0 modulator KSL/level patch via register `0x40`, key the
channel on, key it off (each appears as `0x5A reg val` in the VGM bytes). -/
def c4Block (i : Nat) : List VGMCommand :=
  [.write 0x40 i 0, .write 0xb0 0x20 0, .write 0xb0 0x00 0]

def c4Cmds : List VGMCommand :=
  (List.range 101).flatMap c4Block ++ [.stop 0]

/-- The tracker component of one converter-loop step: only `write` commands
touch the tracker. -/
def trackerStep (st : OPLState) (c : VGMCommand) : OPLState :=
  match c with
  | .write r v _ => (writeRegister st r v).1
  | _ => st

theorem processCommandsAux_tracker (cmds : List VGMCommand) :
    ∀ (s : OPLState) (chInsts : List Int) (cur oi : Nat) (tempo : Int)
      (events : List IMSEvent),
    (processCommandsAux cmds s chInsts cur oi tempo events).2 =
      (upToEnd cmds).foldl trackerStep s := by
  induction cmds with
  | nil => intro s _ _ _ _ _; rfl
  | cons c rest ih =>
    intro s chInsts cur oi tempo events
    cases c with
    | write register value a =>
      have hstep : upToEnd (VGMCommand.write register value a :: rest) =
          VGMCommand.write register value a :: upToEnd rest := by
        simp [upToEnd, List.takeWhile_cons]
      rw [hstep, List.foldl_cons, processCommandsAux]
      cases hwr : (writeRegister s register value).2 with
      | none => exact ih _ _ _ _ _ _
      | some ev =>
        cases ev with
        | noteOn channel note volume instrumentIndex =>
          simp only
          split
          · exact ih _ _ _ _ _ _
          · exact ih _ _ _ _ _ _
        | noteOff channel note => exact ih _ _ _ _ _ _
        | instrumentChange channel instrumentIndex => exact ih _ _ _ _ _ _
    | wait samples a =>
      have hstep : upToEnd (VGMCommand.wait samples a :: rest) =
          VGMCommand.wait samples a :: upToEnd rest := by
        simp [upToEnd, List.takeWhile_cons]
      rw [hstep, List.foldl_cons, processCommandsAux]
      exact ih _ _ _ _ _ _
    | stop a =>
      rw [processCommandsAux]
      have hstep : upToEnd (VGMCommand.stop a :: rest) = [] := by
        rw [upToEnd, List.takeWhile_cons]
        simp
      rw [hstep]
      rfl

/-- The channel-0 operator patch after the `0x40` write with value `v`. -/
def c4Op (v : Nat) : OPLOperatorState :=
  { createDefaultOperator with ksl := (v >>> 6) &&& 0x03, level := v &&& 0x3f }

def c4Chan (v : Nat) : OPLChannelState :=
  { createDefaultChannel with op0 := c4Op v }

def c4Params (v : Nat) : List Nat := operatorsToBnkParams (c4Chan v)

def c4HashV (v : Nat) : String := hashParams (c4Params v)

def c4Inst (v : Nat) : ExtractedInstrument := ⟨v, mkInstName v, c4Params v, c4HashV v⟩

/-- The tracker state after `n` complete iterations of `c4Block`. -/
def c4State (n : Nat) : OPLState :=
  { channels := if n = 0 then List.replicate 9 createDefaultChannel
      else c4Chan (n - 1) :: List.replicate 8 createDefaultChannel
    instruments := (List.range n).map c4Inst
    instrumentHashMap := (List.range n).map (fun j => (c4HashV j, j))
    channelInstruments := if n = 0 then List.replicate 9 (-1)
      else ((n - 1 : Nat) : Int) :: List.replicate 8 (-1)
    percussionMode := false }

set_option maxRecDepth 8000 in
set_option maxHeartbeats 8000000 in
theorem c4Hash_distinct : ∀ n < 101, ∀ j < n, c4HashV j ≠ c4HashV n := by decide

theorem lookup_none_of_keys_ne {β : Type} (key : String) :
    ∀ (ps : List (String × β)), (∀ p ∈ ps, p.1 ≠ key) →
    List.lookup key ps = none := by
  intro ps
  induction ps with
  | nil => intro _; rfl
  | cons p rest ih =>
    intro h
    have hne : (key == p.1) = false := by
      have := h p (List.mem_cons_self p rest)
      simp only [beq_eq_false_iff_ne, ne_eq]
      intro hc
      exact this hc.symm
    cases p with
    | mk k b =>
      rw [List.lookup]
      simp only at hne
      rw [hne]
      exact ih (fun q hq => h q (List.mem_cons_of_mem _ hq))

theorem extractInstrument_new (s : OPLState) (ch : Nat)
    (h : List.lookup (hashParams (operatorsToBnkParams
        (s.channels.getD ch createDefaultChannel))) s.instrumentHashMap = none) :
    extractInstrument s ch =
      ({ s with
          instruments := s.instruments ++ [⟨s.instruments.length,
            mkInstName s.instruments.length,
            operatorsToBnkParams (s.channels.getD ch createDefaultChannel),
            hashParams (operatorsToBnkParams (s.channels.getD ch createDefaultChannel))⟩]
          instrumentHashMap := s.instrumentHashMap ++
            [(hashParams (operatorsToBnkParams (s.channels.getD ch createDefaultChannel)),
              s.instruments.length)] },
        s.instruments.length) := by
  rw [extractInstrument]
  split
  · rename_i existing heq
    rw [h] at heq
    exact absurd heq (by simp)
  · rfl

theorem c4_write40 (w v : Nat) (I : List ExtractedInstrument)
    (M : List (String × Nat)) (CI : List Int) :
    trackerStep
      { channels := c4Chan w :: List.replicate 8 createDefaultChannel,
        instruments := I, instrumentHashMap := M, channelInstruments := CI,
        percussionMode := false }
      (.write 0x40 v 0) =
      { channels := c4Chan v :: List.replicate 8 createDefaultChannel,
        instruments := I, instrumentHashMap := M, channelInstruments := CI,
        percussionMode := false } := rfl

theorem c4_write_keyoff (v : Nat) (I : List ExtractedInstrument)
    (M : List (String × Nat)) (CI : List Int) :
    trackerStep
      { channels := ({ c4Chan v with keyOn := true } :: List.replicate 8 createDefaultChannel),
        instruments := I, instrumentHashMap := M, channelInstruments := CI,
        percussionMode := false }
      (.write 0xb0 0x00 0) =
      { channels := c4Chan v :: List.replicate 8 createDefaultChannel,
        instruments := I, instrumentHashMap := M, channelInstruments := CI,
        percussionMode := false } := by
  simp [trackerStep, writeRegister, writeKeyOn, c4Chan, c4Op,
    createDefaultChannel, createDefaultOperator]

/-- The state to which the key-on write is applied in iteration `v` of the
C4 trace, once `n` instruments are interned. -/
def c4PreKeyOn (v n : Nat) (CI : List Int) : OPLState :=
  { channels := c4Chan v :: List.replicate 8 createDefaultChannel,
    instruments := (List.range n).map c4Inst,
    instrumentHashMap := (List.range n).map (fun j => (c4HashV j, j)),
    channelInstruments := CI, percussionMode := false }

/-- The same state with channel 0 keyed on (the shadow update performed by
`writeKeyOn` before interning). -/
def c4OnKeyOn (v n : Nat) (CI : List Int) : OPLState :=
  { channels := ({ c4Chan v with keyOn := true } :: List.replicate 8 createDefaultChannel),
    instruments := (List.range n).map c4Inst,
    instrumentHashMap := (List.range n).map (fun j => (c4HashV j, j)),
    channelInstruments := CI, percussionMode := false }

theorem c4_write_keyon (v n : Nat) (CI : List Int)
    (hlook : List.lookup (c4HashV v)
      ((List.range n).map (fun j => (c4HashV j, j))) = none)
    (hCI : CI.getD 0 (-1) ≠ (n : Int)) :
    trackerStep (c4PreKeyOn v n CI) (.write 0xb0 0x20 0) =
      { channels := ({ c4Chan v with keyOn := true } :: List.replicate 8 createDefaultChannel),
        instruments := ((List.range n).map c4Inst ++ [⟨n, mkInstName n, c4Params v, c4HashV v⟩]),
        instrumentHashMap := ((List.range n).map (fun j => (c4HashV j, j)) ++ [(c4HashV v, n)]),
        channelInstruments := CI.set 0 (n : Int), percussionMode := false } := by
  have hlen : ((List.range n).map c4Inst).length = n := by simp
  have hex := extractInstrument_new (c4OnKeyOn v n CI) 0 hlook
  have h0 : trackerStep (c4PreKeyOn v n CI) (.write 0xb0 0x20 0) =
      (if (extractInstrument (c4OnKeyOn v n CI) 0).1.channelInstruments.getD 0 (-1) ≠
          ((extractInstrument (c4OnKeyOn v n CI) 0).2 : Int)
       then { (extractInstrument (c4OnKeyOn v n CI) 0).1 with
              channelInstruments := (extractInstrument
                (c4OnKeyOn v n CI) 0).1.channelInstruments.set 0
                ((extractInstrument (c4OnKeyOn v n CI) 0).2 : Int) }
       else (extractInstrument (c4OnKeyOn v n CI) 0).1) := by
    have e1 : (32 : Nat) &&& 3 = 0 := rfl
    have e2 : (8 : Nat) &&& 7 = 0 := rfl
    have e3 : (0 : Nat) <<< 8 = 0 := rfl
    have e4 : (32 : Nat) >>> 2 = 8 := rfl
    have e5 : (32 : Nat) &&& 32 = 32 := rfl
    simp [trackerStep, writeRegister, writeKeyOn, c4PreKeyOn, c4OnKeyOn, c4Chan, c4Op,
      createDefaultChannel, createDefaultOperator, e1, e2, e3, e4, e5]
  rw [h0, hex]
  dsimp only [c4OnKeyOn]
  rw [hlen]
  rw [if_pos hCI]
  rfl

theorem c4_step (m : Nat) (hm : m < 101) :
    (c4Block m).foldl trackerStep (c4State m) = c4State (m + 1) := by
  have hlook : List.lookup (c4HashV m)
      ((List.range m).map (fun j => (c4HashV j, j))) = none := by
    apply lookup_none_of_keys_ne
    intro p hp
    obtain ⟨j, hj, rfl⟩ := List.mem_map.mp hp
    exact c4Hash_distinct m hm j (List.mem_range.mp hj)
  cases m with
  | zero => rfl
  | succ k =>
    have hCI : (((k : Nat) : Int) :: List.replicate 8 (-1)).getD 0 (-1) ≠
        ((k + 1 : Nat) : Int) := by
      simp only [List.getD_cons_zero]
      intro hc
      have hkk : k = k + 1 := by exact_mod_cast hc
      omega
    have hS : c4State (k + 1) = c4PreKeyOn k (k + 1)
        (((k : Nat) : Int) :: List.replicate 8 (-1)) := rfl
    simp only [c4Block, List.foldl_cons, List.foldl_nil]
    rw [hS]
    have h40 : trackerStep (c4PreKeyOn k (k + 1)
        (((k : Nat) : Int) :: List.replicate 8 (-1))) (.write 0x40 (k + 1) 0) =
        c4PreKeyOn (k + 1) (k + 1) (((k : Nat) : Int) :: List.replicate 8 (-1)) :=
      c4_write40 k (k + 1) _ _ _
    rw [h40]
    rw [c4_write_keyon (k + 1) (k + 1) _ hlook hCI]
    have hoff : trackerStep
        { channels := ({ c4Chan (k + 1) with keyOn := true } :: List.replicate 8 createDefaultChannel),
          instruments := ((List.range (k + 1)).map c4Inst ++
            [⟨k + 1, mkInstName (k + 1), c4Params (k + 1), c4HashV (k + 1)⟩]),
          instrumentHashMap := ((List.range (k + 1)).map (fun j => (c4HashV j, j)) ++
            [(c4HashV (k + 1), k + 1)]),
          channelInstruments := (((k : Nat) : Int) ::
            List.replicate 8 (-1)).set 0 ((k + 1 : Nat) : Int),
          percussionMode := false }
        (.write 0xb0 0x00 0) =
        { channels := c4Chan (k + 1) :: List.replicate 8 createDefaultChannel,
          instruments := ((List.range (k + 1)).map c4Inst ++
            [⟨k + 1, mkInstName (k + 1), c4Params (k + 1), c4HashV (k + 1)⟩]),
          instrumentHashMap := ((List.range (k + 1)).map (fun j => (c4HashV j, j)) ++
            [(c4HashV (k + 1), k + 1)]),
          channelInstruments := (((k : Nat) : Int) ::
            List.replicate 8 (-1)).set 0 ((k + 1 : Nat) : Int),
          percussionMode := false } :=
      c4_write_keyoff (k + 1) _ _ _
    rw [hoff]
    have hri : (List.range (k + 1 + 1)).map c4Inst =
        (List.range (k + 1)).map c4Inst ++ [c4Inst (k + 1)] := by
      rw [List.range_succ, List.map_append, List.map_singleton]
    have hrm : (List.range (k + 1 + 1)).map (fun j => (c4HashV j, j)) =
        ((List.range (k + 1)).map (fun j => (c4HashV j, j)) ++ [(c4HashV (k + 1), k + 1)]) := by
      rw [List.range_succ, List.map_append, List.map_singleton]
    have hT0 : c4State (k + 1 + 1) =
        { channels := c4Chan (k + 1) :: List.replicate 8 createDefaultChannel,
          instruments := (List.range (k + 1 + 1)).map c4Inst,
          instrumentHashMap := (List.range (k + 1 + 1)).map (fun j => (c4HashV j, j)),
          channelInstruments := ((k + 1 : Nat) : Int) :: List.replicate 8 (-1),
          percussionMode := false } := rfl
    rw [hT0, hri, hrm]
    rfl

theorem c4_fold : ∀ n ≤ 101,
    ((List.range n).flatMap c4Block).foldl trackerStep initialOPLState = c4State n := by
  intro n
  induction n with
  | zero => intro _; rfl
  | succ m ih =>
    intro hle
    rw [List.range_succ, List.flatMap_append, List.foldl_append, ih (by omega)]
    have hb : (List.flatMap [m] c4Block) = c4Block m := by
      simp
    rw [hb]
    exact c4_step m (by omega)

theorem takeWhile_append_all {α : Type} (p : α → Bool) :
    ∀ (l r : List α), (∀ a ∈ l, p a = true) →
    (l ++ r).takeWhile p = l ++ r.takeWhile p := by
  intro l r
  induction l with
  | nil => intro _; rfl
  | cons x xs ih =>
    intro h
    rw [List.cons_append, List.takeWhile_cons]
    rw [h x (List.mem_cons_self x xs)]
    rw [ih (fun a ha => h a (List.mem_cons_of_mem _ ha))]
    rfl

theorem c4_upToEnd : upToEnd c4Cmds = (List.range 101).flatMap c4Block := by
  rw [upToEnd, c4Cmds]
  rw [takeWhile_append_all _ _ _ ?hall]
  case hall =>
    intro c hc
    obtain ⟨i, _, hci⟩ := List.mem_flatMap.mp hc
    simp only [c4Block, List.mem_cons, List.not_mem_nil, or_false] at hci
    rcases hci with rfl | rfl | rfl <;> rfl
  simp

set_option maxRecDepth 8000 in
/-- C4 (counterexample): the conversion whose VGM command stream is
`c4Cmds` — 101 iterations of `0x5A 0x40 i; 0x5A 0xB0 0x20; 0x5A 0xB0 0x00`
followed by `0x66`, with 101 distinct channel-0 patches — interns 101
instruments; the adjacent BNK directory entries 99 and 100 are named
`inst_99` and `inst_100`, and `lowercase("inst_99") < lowercase("inst_100")`
is false under code-unit comparison, so the emitted directory is not sorted
case-insensitively ascending (and no numeric-suffix resolution exists: the
names are generated, unique by construction). -/
theorem bnk_directory_unsorted_at_101 :
    (processCommands c4Cmds 120).2.instruments.length = 101 ∧
    ((processCommands c4Cmds 120).2.instruments.map (fun i => i.name)).getD 99 "" =
      "inst_99" ∧
    ((processCommands c4Cmds 120).2.instruments.map (fun i => i.name)).getD 100 "" =
      "inst_100" ∧
    jsStrLt (lowerStr "inst_99") (lowerStr "inst_100") = false := by
  have htr : (processCommands c4Cmds 120).2 = c4State 101 := by
    rw [processCommands, processCommandsAux_tracker, c4_upToEnd]
    exact c4_fold 101 (le_refl _)
  rw [htr]
  refine ⟨by simp [c4State], ?_, ?_, by decide⟩
  · decide
  · decide

end ImsPlay
